import Mathlib

/-!
# Verification of the aport-spec OAP reference implementation

Shallow embedding of the Open Agent Passport (OAP) conformance tooling:
the JCS canonicalizer (`conformance/src/jcs.ts`), the deterministic-JSON
canonicalizer and Ed25519 wrappers (`oap/vc/tools/src/crypto-utils.ts`),
the VC conversion tools (`oap/vc/tools/src/index.ts`), the conformance
runner's policy evaluator (`oap-conformance` runner), the schema validator
(`conformance/src/validators.ts`) and the test-harness Ed25519 shim.

JavaScript strings are modelled as `List Char`, JSON values as the
inductive type `J` below (JS `undefined` on an object field is modelled
as absence of the field, matching `JSON.stringify` and Ajv `required`
semantics).  Numbers are modelled as integers: every numeric value the
claims exercise is integral, and JS renders integral numbers exactly as
their decimal form.
-/

/-- JS strings are modelled as lists of characters. -/
abbrev Str : Type := List Char

/-- Conversion from Lean string literals to the `Str` model. -/
def s2l (s : String) : Str := s.data

/-- Decimal rendering of a natural number (JS `Number.prototype.toString`
for non-negative integers). -/
def natDecimal (n : Nat) : Str := (Nat.toDigits 10 n)

/-- Decimal rendering of an integer (JS number rendering for integral
values: optional leading minus, then decimal digits). -/
def intDecimal (i : Int) : Str :=
  if i < 0 then '-' :: natDecimal i.natAbs else natDecimal i.natAbs

/-- JSON-like values, as produced by `JSON.parse` / consumed by
`JSON.stringify`.  Objects carry their key/value pairs in insertion
order; JS objects cannot contain duplicate keys. -/
inductive J : Type where
  | null : J
  | bool : Bool → J
  | num : Int → J
  | str : Str → J
  | arr : List J → J
  | obj : List (Str × J) → J

theorem sizeOf_snd_lt_of_mem {kvs : List (Str × J)} {p : Str × J}
    (h : p ∈ kvs) : sizeOf p.2 < 1 + sizeOf kvs := by
  have h1 : sizeOf p < sizeOf kvs := List.sizeOf_lt_of_mem h
  cases p with
  | mk a b => simp only [Prod.mk.sizeOf_spec] at h1 ⊢; omega

theorem sizeOf_elem_lt_of_mem {xs : List J} {x : J}
    (h : x ∈ xs) : sizeOf x < 1 + sizeOf xs := by
  have h1 : sizeOf x < sizeOf xs := List.sizeOf_lt_of_mem h
  omega

mutual

/-- Structural equality of JSON values (JS deep equality on parsed JSON). -/
def jeq : J → J → Bool
  | J.null, J.null => true
  | J.bool a, J.bool b => a == b
  | J.num a, J.num b => a == b
  | J.str a, J.str b => a == b
  | J.arr xs, J.arr ys => jeqL xs ys
  | J.obj ps, J.obj qs => jeqP ps qs
  | _, _ => false

def jeqL : List J → List J → Bool
  | [], [] => true
  | x :: xs, y :: ys => jeq x y && jeqL xs ys
  | _, _ => false

def jeqP : List (Str × J) → List (Str × J) → Bool
  | [], [] => true
  | p :: ps, q :: qs => (p.1 == q.1) && jeq p.2 q.2 && jeqP ps qs
  | _, _ => false

end

theorem jeqL_sound : ∀ (xs ys : List J),
    (∀ x ∈ xs, ∀ b, jeq x b = true → x = b) →
    jeqL xs ys = true → xs = ys
  | [], [], _, _ => rfl
  | [], _ :: _, _, h => by simp [jeqL.eq_def] at h
  | _ :: _, [], _, h => by simp [jeqL.eq_def] at h
  | x :: xs, y :: ys, ih, h => by
    simp only [jeqL, Bool.and_eq_true] at h
    have hx : x = y := ih x (List.mem_cons_self x xs) y h.1
    have hxs : xs = ys :=
      jeqL_sound xs ys (fun a ha b => ih a (List.mem_cons_of_mem x ha) b) h.2
    rw [hx, hxs]

theorem jeqP_sound : ∀ (ps qs : List (Str × J)),
    (∀ p ∈ ps, ∀ b, jeq p.2 b = true → p.2 = b) →
    jeqP ps qs = true → ps = qs
  | [], [], _, _ => rfl
  | [], _ :: _, _, h => by simp [jeqP.eq_def] at h
  | _ :: _, [], _, h => by simp [jeqP.eq_def] at h
  | p :: ps, q :: qs, ih, h => by
    simp only [jeqP, Bool.and_eq_true, beq_iff_eq] at h
    have hv : p.2 = q.2 := ih p (List.mem_cons_self p ps) q.2 h.1.2
    have hps : ps = qs :=
      jeqP_sound ps qs (fun a ha b => ih a (List.mem_cons_of_mem p ha) b) h.2
    have hk : p.1 = q.1 := h.1.1
    have hp : p = q := Prod.ext hk hv
    rw [hp, hps]

theorem jeq_sound : ∀ (a b : J), jeq a b = true → a = b := by
  have main : ∀ n, ∀ (a b : J), sizeOf a ≤ n → jeq a b = true → a = b := by
    intro n
    induction n using Nat.strong_induction_on with
    | _ n ihn =>
      intro a b hsz h
      cases a <;> cases b <;> simp only [jeq.eq_def, beq_iff_eq] at h <;>
        first
        | exact absurd h (by decide)
        | rw [h]
        | skip
      case null.null => rfl
      case arr.arr xs ys =>
        refine congrArg J.arr (jeqL_sound xs ys (fun x hx c hc => ?_) h)
        have hlt := sizeOf_elem_lt_of_mem hx
        simp only [J.arr.sizeOf_spec] at hsz
        exact ihn (sizeOf x) (by omega) x c (Nat.le_refl _) hc
      case obj.obj ps qs =>
        refine congrArg J.obj (jeqP_sound ps qs (fun p hp c hc => ?_) h)
        have hlt := sizeOf_snd_lt_of_mem hp
        simp only [J.obj.sizeOf_spec] at hsz
        exact ihn (sizeOf p.2) (by omega) p.2 c (Nat.le_refl _) hc
  exact fun a b => main (sizeOf a) a b (Nat.le_refl _)

theorem jeqL_refl (xs : List J) (ih : ∀ x ∈ xs, jeq x x = true) :
    jeqL xs xs = true := by
  induction xs with
  | nil => rfl
  | cons x xs ihl =>
    show (jeq x x && jeqL xs xs) = true
    rw [Bool.and_eq_true]
    exact ⟨ih x (List.mem_cons_self x xs),
      ihl (fun a ha => ih a (List.mem_cons_of_mem x ha))⟩

theorem jeqP_refl (ps : List (Str × J)) (ih : ∀ p ∈ ps, jeq p.2 p.2 = true) :
    jeqP ps ps = true := by
  induction ps with
  | nil => rfl
  | cons p ps ihl =>
    show ((p.1 == p.1) && jeq p.2 p.2 && jeqP ps ps) = true
    rw [Bool.and_eq_true, Bool.and_eq_true]
    exact ⟨⟨by simp, ih p (List.mem_cons_self p ps)⟩,
      ihl (fun a ha => ih a (List.mem_cons_of_mem p ha))⟩

theorem jeq_refl : ∀ (a : J), jeq a a = true := by
  have main : ∀ n, ∀ (a : J), sizeOf a ≤ n → jeq a a = true := by
    intro n
    induction n using Nat.strong_induction_on with
    | _ n ihn =>
      intro a hsz
      cases a <;> simp only [jeq.eq_def, beq_self_eq_true]
      case arr xs =>
        refine jeqL_refl xs (fun x hx => ?_)
        have hlt := sizeOf_elem_lt_of_mem hx
        simp only [J.arr.sizeOf_spec] at hsz
        exact ihn (sizeOf x) (by omega) x (Nat.le_refl _)
      case obj ps =>
        refine jeqP_refl ps (fun p hp => ?_)
        have hlt := sizeOf_snd_lt_of_mem hp
        simp only [J.obj.sizeOf_spec] at hsz
        exact ihn (sizeOf p.2) (by omega) p.2 (Nat.le_refl _)
  exact fun a => main (sizeOf a) a (Nat.le_refl _)

instance : DecidableEq J := fun a b =>
  if h : jeq a b = true then
    Decidable.isTrue (jeq_sound a b h)
  else
    Decidable.isFalse (fun he => h (he ▸ jeq_refl a))

/-- JS truthiness of a value (`undefined`, i.e. a missing field, is
handled at the `Option J` level by `truthyOpt`). -/
def truthy : J → Bool
  | J.null => false
  | J.bool b => b
  | J.num n => n != 0
  | J.str s => s != []
  | J.arr _ => true
  | J.obj _ => true

/-- JS truthiness of a possibly-missing value. -/
def truthyOpt : Option J → Bool
  | none => false
  | some v => truthy v

/-- Property access `o[k]` on a JSON value: `none` models JS `undefined`
(also for access on a non-object, as guarded by `?.` in the sources). -/
def getF : J → Str → Option J
  | J.obj kvs, k => (kvs.find? (fun p => p.1 = k)).map Prod.snd
  | _, _ => none

/-- Optional-chained property access `o?.[k]`. -/
def getFOpt : Option J → Str → Option J
  | none, _ => none
  | some v, k => getF v k

/-! ## Lexicographic key order and key sorting

`Array.prototype.sort()` with no comparator (used by both canonicalizers
on `Object.keys`) sorts strings lexicographically by code unit.  Keys of
a JS object are pairwise distinct, so the sorted key order is unique. -/

/-- Lexicographic (code-unit) string comparison, JS `a <= b` on strings. -/
def lexLe : Str → Str → Bool
  | [], _ => true
  | _ :: _, [] => false
  | a :: as, b :: bs =>
    if a.toNat < b.toNat then true
    else if b.toNat < a.toNat then false
    else lexLe as bs

theorem charEqOfToNat {a b : Char} (h : a.toNat = b.toNat) : a = b :=
  Char.ext (UInt32.eq_of_val_eq (Fin.ext h))

theorem lexLe_cons_iff {a b : Char} {as bs : Str} :
    lexLe (a :: as) (b :: bs) = true ↔
      (a.toNat < b.toNat ∨ (a = b ∧ lexLe as bs = true)) := by
  by_cases h1 : a.toNat < b.toNat
  · simp [lexLe, h1]
  · by_cases h2 : b.toNat < a.toNat
    · have hne : a ≠ b := fun he => by cases he; omega
      simp [lexLe, h1, h2, hne]
    · have heq : a = b := charEqOfToNat (by omega)
      simp [lexLe, h1, h2, heq]

theorem lexLe_total : ∀ (a b : Str), lexLe a b = true ∨ lexLe b a = true
  | [], _ => Or.inl rfl
  | _ :: _, [] => Or.inr rfl
  | a :: as, b :: bs => by
    rw [lexLe_cons_iff, lexLe_cons_iff]
    rcases Nat.lt_trichotomy a.toNat b.toNat with h | h | h
    · exact Or.inl (Or.inl h)
    · have heq : a = b := charEqOfToNat h
      rcases lexLe_total as bs with h2 | h2
      · exact Or.inl (Or.inr ⟨heq, h2⟩)
      · exact Or.inr (Or.inr ⟨heq.symm, h2⟩)
    · exact Or.inr (Or.inl h)

theorem lexLe_antisymm : ∀ (a b : Str),
    lexLe a b = true → lexLe b a = true → a = b
  | [], [], _, _ => rfl
  | [], _ :: _, _, h2 => by simp [lexLe] at h2
  | _ :: _, [], h1, _ => by simp [lexLe] at h1
  | a :: as, b :: bs, h1, h2 => by
    rw [lexLe_cons_iff] at h1 h2
    rcases h1 with h1 | ⟨h1e, h1r⟩
    · rcases h2 with h2 | ⟨h2e, _⟩
      · omega
      · cases h2e; omega
    · rcases h2 with h2 | ⟨_, h2r⟩
      · cases h1e; omega
      · rw [h1e, lexLe_antisymm as bs h1r h2r]

theorem lexLe_trans : ∀ (a b c : Str),
    lexLe a b = true → lexLe b c = true → lexLe a c = true
  | [], _, _, _, _ => rfl
  | _ :: _, [], _, h1, _ => by simp [lexLe] at h1
  | _ :: _, _ :: _, [], _, h2 => by simp [lexLe] at h2
  | a :: as, b :: bs, c :: cs, h1, h2 => by
    rw [lexLe_cons_iff] at h1 h2 ⊢
    rcases h1 with h1 | ⟨h1e, h1r⟩
    · rcases h2 with h2 | ⟨h2e, _⟩
      · exact Or.inl (by omega)
      · cases h2e; exact Or.inl h1
    · rcases h2 with h2 | ⟨h2e, h2r⟩
      · cases h1e; exact Or.inl h2
      · exact Or.inr ⟨h1e.trans h2e, lexLe_trans as bs cs h1r h2r⟩

/-- Insert a pair into a key-sorted list of pairs (helper of `sortPairs`). -/
def insPair {α : Type} (p : Str × α) : List (Str × α) → List (Str × α)
  | [] => [p]
  | q :: qs => if lexLe p.1 q.1 then p :: q :: qs else q :: insPair p qs

/-- Sort key/value pairs by key (the observable effect of
`Object.keys(obj).sort()` followed by per-key lookup: since JS object keys
are pairwise distinct, any comparison sort yields this unique order). -/
def sortPairs {α : Type} : List (Str × α) → List (Str × α)
  | [] => []
  | p :: ps => insPair p (sortPairs ps)

theorem insPair_perm {α : Type} (p : Str × α) :
    ∀ (l : List (Str × α)), (insPair p l).Perm (p :: l)
  | [] => List.Perm.refl _
  | q :: qs => by
    simp only [insPair]
    split
    · exact List.Perm.refl _
    · exact (List.Perm.cons q (insPair_perm p qs)).trans
        (List.Perm.swap p q qs)

theorem sortPairs_perm {α : Type} :
    ∀ (l : List (Str × α)), (sortPairs l).Perm l
  | [] => List.Perm.refl _
  | p :: ps =>
    (insPair_perm p (sortPairs ps)).trans (List.Perm.cons p (sortPairs_perm ps))

/-- Key order as a relation on pairs. -/
def keyLe {α : Type} (p q : Str × α) : Prop := lexLe p.1 q.1 = true

theorem insPair_sorted {α : Type} (p : Str × α) :
    ∀ {l : List (Str × α)}, l.Pairwise keyLe → (insPair p l).Pairwise keyLe
  | [], _ => by simp [insPair, List.pairwise_singleton]
  | q :: qs, hs => by
    simp only [insPair]
    rcases List.pairwise_cons.mp hs with ⟨hq, hqs⟩
    split
    · rename_i hle
      refine List.pairwise_cons.mpr ⟨?_, hs⟩
      intro r hr
      rcases hr with _ | hr
      · exact hle
      · exact lexLe_trans _ _ _ hle (hq r (by assumption))
    · rename_i hnle
      have hqp : keyLe q p := by
        rcases lexLe_total p.1 q.1 with h | h
        · exact absurd h hnle
        · exact h
      refine List.pairwise_cons.mpr ⟨?_, insPair_sorted p hqs⟩
      intro r hr
      have hr' : r ∈ p :: qs := (insPair_perm p qs).mem_iff.mp hr
      rcases hr' with _ | hr'
      · exact hqp
      · exact hq r (by assumption)

theorem sortPairs_sorted {α : Type} :
    ∀ (l : List (Str × α)), (sortPairs l).Pairwise keyLe
  | [] => List.Pairwise.nil
  | p :: ps => insPair_sorted p (sortPairs_sorted ps)

/-- Strict key order. -/
def keyLt {α : Type} (p q : Str × α) : Prop :=
  lexLe p.1 q.1 = true ∧ p.1 ≠ q.1

theorem pairwise_keyLt {α : Type} {l : List (Str × α)}
    (hs : l.Pairwise keyLe) (hn : (l.map Prod.fst).Nodup) :
    l.Pairwise keyLt := by
  have hn' : l.Pairwise (fun p q : Str × α => p.1 ≠ q.1) :=
    (List.pairwise_map).mp hn
  exact (hs.and hn').imp (fun h => ⟨h.1, h.2⟩)

/-- Two permuted pair lists with pairwise-distinct keys sort identically:
the sorted order of a JS object's keys depends only on the key set. -/
theorem sortPairs_eq_of_perm {α : Type} {l1 l2 : List (Str × α)}
    (hp : l1.Perm l2) (hn : (l1.map Prod.fst).Nodup) :
    sortPairs l1 = sortPairs l2 := by
  haveI : IsAntisymm (Str × α) keyLt :=
    ⟨fun a b hab hba => absurd (lexLe_antisymm _ _ hab.1 hba.1) hab.2⟩
  have hperm : (sortPairs l1).Perm (sortPairs l2) :=
    ((sortPairs_perm l1).trans hp).trans (sortPairs_perm l2).symm
  have hn1 : ((sortPairs l1).map Prod.fst).Nodup :=
    (((sortPairs_perm l1).map Prod.fst).nodup_iff).mpr hn
  have hn2 : ((sortPairs l2).map Prod.fst).Nodup :=
    ((hperm.map Prod.fst).nodup_iff).mp hn1
  exact List.eq_of_perm_of_sorted hperm
    (pairwise_keyLt (sortPairs_sorted l1) hn1)
    (pairwise_keyLt (sortPairs_sorted l2) hn2)

/-- Sorting transports pointwise relations that preserve keys. -/
theorem insPair_forall2 {α : Type} {R : (Str × α) → (Str × α) → Prop}
    (hkey : ∀ p q, R p q → p.1 = q.1) :
    ∀ {p q : Str × α} {l1 l2 : List (Str × α)}, R p q → List.Forall₂ R l1 l2 →
      List.Forall₂ R (insPair p l1) (insPair q l2) := by
  intro p q l1 l2 hpq hl
  induction hl with
  | nil => exact List.Forall₂.cons hpq List.Forall₂.nil
  | cons ha hl ih =>
    rename_i a b as bs
    simp only [insPair]
    rw [hkey p q hpq, hkey a b ha]
    split
    · exact List.Forall₂.cons hpq (List.Forall₂.cons ha hl)
    · exact List.Forall₂.cons ha ih

theorem sortPairs_forall2 {α : Type} {R : (Str × α) → (Str × α) → Prop}
    (hkey : ∀ p q, R p q → p.1 = q.1) :
    ∀ {l1 l2 : List (Str × α)}, List.Forall₂ R l1 l2 →
      List.Forall₂ R (sortPairs l1) (sortPairs l2) := by
  intro l1 l2 hl
  induction hl with
  | nil => exact List.Forall₂.nil
  | cons ha hl ih => exact insPair_forall2 hkey ha ih

/-! ## String and number rendering (`JSON.stringify` on scalars)

Both canonicalizers delegate scalar rendering to the host JSON
serializer: `JSON.stringify(value)` for strings, `Number.prototype
.toString` for numbers (restricted here to integral values, see the
header comment). -/

/-- One character of `JSON.stringify` string escaping. -/
def escChar (c : Char) : Str :=
  if c = '"' then ['\\', '"']
  else if c = '\\' then ['\\', '\\']
  else if c.toNat = 8 then ['\\', 'b']
  else if c.toNat = 9 then ['\\', 't']
  else if c.toNat = 10 then ['\\', 'n']
  else if c.toNat = 12 then ['\\', 'f']
  else if c.toNat = 13 then ['\\', 'r']
  else if c.toNat < 32 then
    ['\\', 'u', '0', '0',
      (if c.toNat / 16 = 1 then '1' else '0'),
      (s2l "0123456789abcdef").getD (c.toNat % 16) '0']
  else [c]

/-- `JSON.stringify` of a string value: quoted, with escapes. -/
def strRender (s : Str) : Str :=
  '"' :: (s.foldr (fun c acc => escChar c ++ acc) ['"'])

/-- Rendering of one `"key":value` pair, value already rendered. -/
def renderPair (p : Str × Str) : Str := strRender p.1 ++ ':' :: p.2

/-- Comma-joined rendering of pre-rendered object pairs. -/
def renderPairs : List (Str × Str) → Str
  | [] => []
  | [p] => renderPair p
  | p :: q :: ps => renderPair p ++ ',' :: renderPairs (q :: ps)

mutual

/-- `JCS.canonicalize` (conformance/src/jcs.ts): RFC 8785-style
canonicalization.  The source sorts `Object.keys(obj)` and then
serializes each value in sorted key order; here each value is serialized
first and the (key, rendered value) pairs are then sorted by key.  The
output is identical because the sort compares keys only and JS object
keys are pairwise distinct. -/
def canon : J → Str
  | J.null => s2l "null"
  | J.bool true => s2l "true"
  | J.bool false => s2l "false"
  | J.num n => intDecimal n
  | J.str s => strRender s
  | J.arr xs => '[' :: (canonItems xs ++ [']'])
  | J.obj kvs => '{' :: (renderPairs (sortPairs (canonPairs kvs)) ++ ['}'])

/-- Comma-joined canonicalization of array elements. -/
def canonItems : List J → Str
  | [] => []
  | [x] => canon x
  | x :: y :: xs => canon x ++ ',' :: canonItems (y :: xs)

/-- Canonicalization of each value of an object, keys untouched. -/
def canonPairs : List (Str × J) → List (Str × Str)
  | [] => []
  | p :: ps => (p.1, canon p.2) :: canonPairs ps

end

mutual

/-- `createDeterministicJson` (oap/vc/tools/src/crypto-utils.ts):
`JSON.stringify` with a replacer that returns each object with its keys
sorted, so every object level is serialized in sorted key order.  As for
`canon`, values are serialized before sorting the (key, rendered value)
pairs; the output is identical because the sort compares keys only. -/
def detJson : J → Str
  | J.null => s2l "null"
  | J.bool true => s2l "true"
  | J.bool false => s2l "false"
  | J.num n => intDecimal n
  | J.str s => strRender s
  | J.arr xs => '[' :: (detItems xs ++ [']'])
  | J.obj kvs => '{' :: (renderPairs (sortPairs (detPairs kvs)) ++ ['}'])

/-- Comma-joined serialization of array elements. -/
def detItems : List J → Str
  | [] => []
  | [x] => detJson x
  | x :: y :: xs => detJson x ++ ',' :: detItems (y :: xs)

/-- Serialization of each value of an object, keys untouched. -/
def detPairs : List (Str × J) → List (Str × Str)
  | [] => []
  | p :: ps => (p.1, detJson p.2) :: detPairs ps

end

/-! ## Semantic equality of JSON values

Two JSON values are semantically equal when they differ only in the
order of object keys, at any nesting depth; array order is significant.
JS objects cannot carry duplicate keys, hence the `Nodup` condition. -/

mutual

inductive SemEq : J → J → Prop where
  | null : SemEq J.null J.null
  | bool (b : Bool) : SemEq (J.bool b) (J.bool b)
  | num (n : Int) : SemEq (J.num n) (J.num n)
  | str (s : Str) : SemEq (J.str s) (J.str s)
  | arr {xs ys : List J} : SemEqL xs ys → SemEq (J.arr xs) (J.arr ys)
  | obj {kvs1 mid kvs2 : List (Str × J)} :
      (kvs1.map Prod.fst).Nodup → SemEqP kvs1 mid → mid.Perm kvs2 →
      SemEq (J.obj kvs1) (J.obj kvs2)

inductive SemEqL : List J → List J → Prop where
  | nil : SemEqL [] []
  | cons {x y : J} {xs ys : List J} :
      SemEq x y → SemEqL xs ys → SemEqL (x :: xs) (y :: ys)

inductive SemEqP : List (Str × J) → List (Str × J) → Prop where
  | nil : SemEqP [] []
  | cons {p q : Str × J} {ps qs : List (Str × J)} :
      p.1 = q.1 → SemEq p.2 q.2 → SemEqP ps qs → SemEqP (p :: ps) (q :: qs)

end

theorem semEqP_keys : ∀ {l1 l2 : List (Str × J)}, SemEqP l1 l2 →
    l1.map Prod.fst = l2.map Prod.fst
  | [], [], _ => rfl
  | [], _ :: _, h => nomatch h
  | _ :: _, [], h => nomatch h
  | p :: ps, q :: qs, h => by
    cases h with
    | cons hk hv ht => simp only [List.map_cons, hk, semEqP_keys ht]

theorem canonItems_congr : ∀ (xs ys : List J), SemEqL xs ys →
    (∀ x ∈ xs, ∀ y, SemEq x y → canon x = canon y) →
    canonItems xs = canonItems ys
  | [], [], _, _ => rfl
  | [], _ :: _, h, _ => nomatch h
  | _ :: _, [], h, _ => nomatch h
  | x :: xs, y :: ys, h, ih => by
    cases h with
    | cons hxy ht =>
      cases ht with
      | nil => exact ih x (List.mem_cons_self x []) y hxy
      | cons hxy2 ht2 =>
        rename_i x2 y2 xs2 ys2
        have h1 : canon x = canon y := ih x (List.mem_cons_self x _) y hxy
        have h2 : canonItems (x2 :: xs2) = canonItems (y2 :: ys2) :=
          canonItems_congr (x2 :: xs2) (y2 :: ys2)
            (SemEqL.cons hxy2 ht2)
            (fun a ha b hb => ih a (List.mem_cons_of_mem x ha) b hb)
        show canon x ++ ',' :: canonItems (x2 :: xs2)
          = canon y ++ ',' :: canonItems (y2 :: ys2)
        rw [h1, h2]

theorem canonPairs_congr : ∀ (l1 l2 : List (Str × J)), SemEqP l1 l2 →
    (∀ p ∈ l1, ∀ y, SemEq p.2 y → canon p.2 = canon y) →
    canonPairs l1 = canonPairs l2
  | [], [], _, _ => rfl
  | [], _ :: _, h, _ => nomatch h
  | _ :: _, [], h, _ => nomatch h
  | p :: ps, q :: qs, h, ih => by
    cases h with
    | cons hk hv ht =>
      have h1 : canon p.2 = canon q.2 := ih p (List.mem_cons_self p ps) q.2 hv
      have h2 : canonPairs ps = canonPairs qs :=
        canonPairs_congr ps qs ht
          (fun a ha b hb => ih a (List.mem_cons_of_mem p ha) b hb)
      show (p.1, canon p.2) :: canonPairs ps = (q.1, canon q.2) :: canonPairs qs
      rw [hk, h1, h2]

theorem canonPairs_map (l : List (Str × J)) :
    canonPairs l = l.map (fun p => (p.1, canon p.2)) := by
  induction l with
  | nil => rfl
  | cons p ps ih => show (p.1, canon p.2) :: canonPairs ps = _; rw [ih]; rfl

theorem canonPairs_keys (l : List (Str × J)) :
    (canonPairs l).map Prod.fst = l.map Prod.fst := by
  rw [canonPairs_map, List.map_map]; rfl

theorem canon_respects_semEq : ∀ (a b : J), SemEq a b → canon a = canon b := by
  have main : ∀ n, ∀ (a b : J), sizeOf a ≤ n → SemEq a b → canon a = canon b := by
    intro n
    induction n using Nat.strong_induction_on with
    | _ n ihn =>
      intro a b hsz h
      cases h with
      | null => rfl
      | bool b => rfl
      | num n => rfl
      | str s => rfl
      | arr hL =>
        rename_i xs ys
        simp only [J.arr.sizeOf_spec] at hsz
        have hitems : canonItems xs = canonItems ys :=
          canonItems_congr xs ys hL (fun x hx y hy => by
            have hlt := sizeOf_elem_lt_of_mem hx
            exact ihn (sizeOf x) (by omega) x y (Nat.le_refl _) hy)
        show '[' :: (canonItems xs ++ [']']) = '[' :: (canonItems ys ++ [']'])
        rw [hitems]
      | obj hnd hP hperm =>
        rename_i kvs1 mid kvs2
        simp only [J.obj.sizeOf_spec] at hsz
        have h1 : canonPairs kvs1 = canonPairs mid :=
          canonPairs_congr kvs1 mid hP (fun p hp y hy => by
            have hlt := sizeOf_snd_lt_of_mem hp
            exact ihn (sizeOf p.2) (by omega) p.2 y (Nat.le_refl _) hy)
        have hmidnd : (mid.map Prod.fst).Nodup := semEqP_keys hP ▸ hnd
        have h2 : sortPairs (canonPairs mid) = sortPairs (canonPairs kvs2) := by
          refine sortPairs_eq_of_perm ?_ ?_
          · rw [canonPairs_map, canonPairs_map]
            exact hperm.map _
          · rw [canonPairs_keys]; exact hmidnd
        show '{' :: (renderPairs (sortPairs (canonPairs kvs1)) ++ ['}'])
          = '{' :: (renderPairs (sortPairs (canonPairs kvs2)) ++ ['}'])
        rw [h1, h2]
  exact fun a b => main (sizeOf a) a b (Nat.le_refl _)

theorem detItems_eq_canonItems : ∀ (xs : List J),
    (∀ x ∈ xs, detJson x = canon x) → detItems xs = canonItems xs
  | [], _ => rfl
  | [x], ih => ih x (List.mem_cons_self x [])
  | x :: y :: xs, ih => by
    have h1 : detJson x = canon x := ih x (List.mem_cons_self x _)
    have h2 : detItems (y :: xs) = canonItems (y :: xs) :=
      detItems_eq_canonItems (y :: xs)
        (fun a ha => ih a (List.mem_cons_of_mem x ha))
    show detJson x ++ ',' :: detItems (y :: xs)
      = canon x ++ ',' :: canonItems (y :: xs)
    rw [h1, h2]

theorem detPairs_eq_canonPairs : ∀ (l : List (Str × J)),
    (∀ p ∈ l, detJson p.2 = canon p.2) → detPairs l = canonPairs l
  | [], _ => rfl
  | p :: ps, ih => by
    have h1 : detJson p.2 = canon p.2 := ih p (List.mem_cons_self p ps)
    have h2 : detPairs ps = canonPairs ps :=
      detPairs_eq_canonPairs ps (fun a ha => ih a (List.mem_cons_of_mem p ha))
    show (p.1, detJson p.2) :: detPairs ps = (p.1, canon p.2) :: canonPairs ps
    rw [h1, h2]

/-- The deterministic-JSON serializer used for VC signing and the JCS
canonicalizer produce identical bytes on every JSON value. -/
theorem detJson_eq_canon : ∀ (a : J), detJson a = canon a := by
  have main : ∀ n, ∀ (a : J), sizeOf a ≤ n → detJson a = canon a := by
    intro n
    induction n using Nat.strong_induction_on with
    | _ n ihn =>
      intro a hsz
      cases a with
      | null => rfl
      | bool b => cases b <;> rfl
      | num i => rfl
      | str s => rfl
      | arr xs =>
        simp only [J.arr.sizeOf_spec] at hsz
        have h : detItems xs = canonItems xs :=
          detItems_eq_canonItems xs (fun x hx => by
            have hlt := sizeOf_elem_lt_of_mem hx
            exact ihn (sizeOf x) (by omega) x (Nat.le_refl _))
        show '[' :: (detItems xs ++ [']']) = '[' :: (canonItems xs ++ [']'])
        rw [h]
      | obj kvs =>
        simp only [J.obj.sizeOf_spec] at hsz
        have h : detPairs kvs = canonPairs kvs :=
          detPairs_eq_canonPairs kvs (fun p hp => by
            have hlt := sizeOf_snd_lt_of_mem hp
            exact ihn (sizeOf p.2) (by omega) p.2 (Nat.le_refl _))
        show '{' :: (renderPairs (sortPairs (detPairs kvs)) ++ ['}'])
          = '{' :: (renderPairs (sortPairs (canonPairs kvs)) ++ ['}'])
        rw [h]
  exact fun a => main (sizeOf a) a (Nat.le_refl _)

/-! ## Base64 and base64url

Executable model of the environment base64 primitives used by the
sources: `btoa` (canonical padded standard base64 of a byte string) and
`atob` (HTML "forgiving base64" decode: strip ASCII whitespace, strip up
to two trailing `=` when the length is a multiple of four, reject a
remaining length of 1 mod 4 and any character outside the alphabet).
`crypto-utils.ts` builds its base64url conversions on top of these (the
Workers branch of the sources; the Node `Buffer` branch accepts the same
canonical inputs). -/

/-- Bytes of a `Uint8Array`. -/
abbrev Bytes : Type := List Nat

/-- Map a 3-byte group to four 6-bit values (with the RFC 4648 handling
of 1- and 2-byte remainders). -/
def encode3 : Bytes → List Nat
  | [] => []
  | [b1] => [b1 / 4, b1 % 4 * 16]
  | [b1, b2] => [b1 / 4, b1 % 4 * 16 + b2 / 16, b2 % 16 * 4]
  | b1 :: b2 :: b3 :: rest =>
    (b1 / 4) :: (b1 % 4 * 16 + b2 / 16) :: (b2 % 16 * 4 + b3 / 64) ::
      (b3 % 64) :: encode3 rest

/-- Map 6-bit groups back to bytes, dropping the padding bits of a
2- or 3-character remainder (a remainder of one character is ignored,
matching a decoder that has already rejected length 1 mod 4). -/
def decode4 : List Nat → Bytes
  | c1 :: c2 :: c3 :: c4 :: rest =>
    (c1 * 4 + c2 / 16) :: (c2 % 16 * 16 + c3 / 4) :: (c3 % 4 * 64 + c4) ::
      decode4 rest
  | [c1, c2] => [c1 * 4 + c2 / 16]
  | [c1, c2, c3] => [c1 * 4 + c2 / 16, c2 % 16 * 16 + c3 / 4]
  | _ => []

theorem decode4_encode3 : ∀ (bs : Bytes), (∀ b ∈ bs, b < 256) →
    decode4 (encode3 bs) = bs
  | [], _ => rfl
  | [b1], h => by
    have h1 : b1 < 256 := h b1 (List.mem_cons_self b1 [])
    show [b1 / 4 * 4 + b1 % 4 * 16 / 16] = [b1]
    congr 1
    omega
  | [b1, b2], h => by
    have h1 : b1 < 256 := h b1 (by simp)
    have h2 : b2 < 256 := h b2 (by simp)
    show [b1 / 4 * 4 + (b1 % 4 * 16 + b2 / 16) / 16,
      (b1 % 4 * 16 + b2 / 16) % 16 * 16 + b2 % 16 * 4 / 4] = [b1, b2]
    congr 1
    · omega
    · congr 1
      omega
  | b1 :: b2 :: b3 :: rest, h => by
    have h1 : b1 < 256 := h b1 (by simp)
    have h2 : b2 < 256 := h b2 (by simp)
    have h3 : b3 < 256 := h b3 (by simp)
    have hrest : decode4 (encode3 rest) = rest :=
      decode4_encode3 rest (fun b hb => h b (by simp [hb]))
    cases rest with
    | nil =>
      show [b1 / 4 * 4 + (b1 % 4 * 16 + b2 / 16) / 16,
        (b1 % 4 * 16 + b2 / 16) % 16 * 16 + (b2 % 16 * 4 + b3 / 64) / 4,
        (b2 % 16 * 4 + b3 / 64) % 4 * 64 + b3 % 64] = [b1, b2, b3]
      congr 1
      · omega
      · congr 1
        · omega
        · congr 1
          omega
    | cons b4 rest2 =>
      show (b1 / 4 * 4 + (b1 % 4 * 16 + b2 / 16) / 16) ::
        ((b1 % 4 * 16 + b2 / 16) % 16 * 16 + (b2 % 16 * 4 + b3 / 64) / 4) ::
        ((b2 % 16 * 4 + b3 / 64) % 4 * 64 + b3 % 64) ::
        decode4 (encode3 (b4 :: rest2)) = b1 :: b2 :: b3 :: b4 :: rest2
      rw [hrest]
      congr 1
      · omega
      · congr 1
        · omega
        · congr 1
          omega

theorem encode3_lt64 : ∀ (bs : Bytes), (∀ b ∈ bs, b < 256) →
    ∀ s ∈ encode3 bs, s < 64
  | [], _, s, hs => nomatch hs
  | [b1], h, s, hs => by
    have h1 : b1 < 256 := h b1 (by simp)
    simp only [encode3, List.mem_cons, List.not_mem_nil, or_false] at hs
    rcases hs with rfl | rfl <;> omega
  | [b1, b2], h, s, hs => by
    have h1 : b1 < 256 := h b1 (by simp)
    have h2 : b2 < 256 := h b2 (by simp)
    simp only [encode3, List.mem_cons, List.not_mem_nil, or_false] at hs
    rcases hs with rfl | rfl | rfl <;> omega
  | b1 :: b2 :: b3 :: rest, h, s, hs => by
    have h1 : b1 < 256 := h b1 (by simp)
    have h2 : b2 < 256 := h b2 (by simp)
    have h3 : b3 < 256 := h b3 (by simp)
    simp only [encode3, List.mem_cons] at hs
    rcases hs with rfl | rfl | rfl | rfl | hs
    · omega
    · omega
    · omega
    · omega
    · exact encode3_lt64 rest (fun b hb => h b (by simp [hb])) s hs

theorem encode3_len_mod : ∀ (bs : Bytes), (encode3 bs).length % 4 ≠ 1
  | [] => by simp [encode3]
  | [_] => by simp [encode3]
  | [_, _] => by simp [encode3]
  | b1 :: b2 :: b3 :: rest => by
    have := encode3_len_mod rest
    simp only [encode3, List.length_cons]
    omega

/-- The standard base64 alphabet. -/
def b64Alphabet : Str :=
  s2l "ABCDEFGHIJKLMNOPQRSTUVWXYZabcdefghijklmnopqrstuvwxyz0123456789+/"

/-- Character for a 6-bit value, standard alphabet. -/
def b64Char (n : Nat) : Char := b64Alphabet.getD n 'A'

/-- Index of a character in a string (`none` when absent). -/
def idxIn (c : Char) : Str → Option Nat
  | [] => none
  | d :: ds => if c = d then some 0 else (idxIn c ds).map (· + 1)

/-- Index of a character in the standard alphabet (`none` when the
character is not a base64 character). -/
def sixOfB64Char (c : Char) : Option Nat := idxIn c b64Alphabet

/-- ASCII whitespace stripped by forgiving base64 decoding. -/
def isB64Ws (c : Char) : Bool :=
  c = ' ' || c = '\t' || c = '\n' || c = '\x0d' || c.toNat = 12

/-- Strip up to two trailing `=` characters. -/
def dropTrailingEq (t : Str) : Str :=
  (if t.reverse.head? = some '=' then
    (if t.reverse.tail.head? = some '=' then t.reverse.tail.tail
     else t.reverse.tail)
   else t.reverse).reverse

/-- `atob`: HTML forgiving-base64 decode.  `Except.error` models the
`DOMException` thrown on malformed input. -/
def atobE (s : Str) : Except Unit Bytes :=
  let t := s.filter (fun c => !(isB64Ws c))
  let t2 := if t.length % 4 = 0 then dropTrailingEq t else t
  if t2.length % 4 = 1 then Except.error ()
  else
    match t2.mapM sixOfB64Char with
    | none => Except.error ()
    | some sixes => Except.ok (decode4 sixes)

/-- `btoa`: canonical padded standard base64 of a byte string. -/
def btoa (bs : Bytes) : Str :=
  (encode3 bs).map b64Char ++
    List.replicate ((4 - (encode3 bs).length % 4) % 4) '='

/-- `Ed25519.isValidBase64` (conformance harness): `btoa(atob(str)) ===
str`, i.e. the string is canonical padded base64; the internal catch
turns a decode failure into `false`. -/
def isValidBase64 (s : Str) : Bool :=
  match atobE s with
  | Except.error _ => false
  | Except.ok bs => btoa bs == s

/-- base64url → base64 character translation (dash to plus, underscore
to slash). -/
def urlToStd (c : Char) : Char :=
  if c = '-' then '+' else if c = '_' then '/' else c

/-- base64 → base64url character translation (plus to dash, slash to
underscore). -/
def stdToUrl (c : Char) : Char :=
  if c = '+' then '-' else if c = '/' then '_' else c

/-- Pad with `=` to a multiple of four characters (`while (base64.length
% 4) base64 += "="`). -/
def padTo4 (s : Str) : Str :=
  s ++ List.replicate ((4 - s.length % 4) % 4) '='

/-- `base64urlToBytes` / `base64ToBytes` share this decoder
(crypto-utils.ts, Workers branch: translate url characters, pad, then
`atob`). -/
def base64urlToBytesE (s : Str) : Except Unit Bytes :=
  atobE (padTo4 (s.map urlToStd))

/-- `bytesToBase64url` (crypto-utils.ts): standard base64, then translate
`+ /` to `- _` and strip padding. -/
def bytesToBase64url (bs : Bytes) : Str :=
  ((btoa bs).filter (fun c => !(c = '='))).map stdToUrl

theorem b64Char_spec : ∀ n, n < 64 →
    sixOfB64Char (b64Char n) = some n ∧ ¬(b64Char n = '=') ∧
    isB64Ws (b64Char n) = false ∧ urlToStd (stdToUrl (b64Char n)) = b64Char n := by
  decide

theorem mapM_sixOf_map_b64Char : ∀ (l : List Nat), (∀ n ∈ l, n < 64) →
    (l.map b64Char).mapM sixOfB64Char = some l := by
  intro l hl
  induction l with
  | nil => rfl
  | cons n ns ih =>
    have h1 := (b64Char_spec n (hl n (by simp))).1
    simp only [List.map_cons, List.mapM_cons, h1, Option.bind_eq_bind,
      Option.some_bind, ih (fun m hm => hl m (by simp [hm]))]
    rfl

theorem head_reverse_ne_eq {xs : Str} (hxs : ∀ c ∈ xs, ¬(c = '=')) :
    ¬(xs.reverse.head? = some '=') := by
  intro h
  cases hrev : xs.reverse with
  | nil => rw [hrev] at h; exact Option.noConfusion h
  | cons c rest =>
    rw [hrev] at h
    have hc : c ∈ xs := List.mem_reverse.mp (by rw [hrev]; exact List.mem_cons_self _ _)
    exact hxs c hc (by simpa using h)

theorem dropTrailingEq_append_replicate (xs : Str) (k : Nat) (hk : k ≤ 2)
    (hxs : ∀ c ∈ xs, ¬(c = '=')) :
    dropTrailingEq (xs ++ List.replicate k '=') = xs := by
  have hhd := head_reverse_ne_eq hxs
  interval_cases k
  · rw [show xs ++ List.replicate 0 '=' = xs from by simp]
    unfold dropTrailingEq
    rw [if_neg hhd, List.reverse_reverse]
  · rw [show xs ++ List.replicate 1 '=' = xs ++ ['='] from rfl]
    unfold dropTrailingEq
    rw [show (xs ++ ['=']).reverse = '=' :: xs.reverse from by simp]
    simp only [List.head?_cons, List.tail_cons, if_true]
    rw [if_neg hhd, List.reverse_reverse]
  · rw [show xs ++ List.replicate 2 '=' = xs ++ ['=', '='] from rfl]
    unfold dropTrailingEq
    rw [show (xs ++ ['=', '=']).reverse = '=' :: '=' :: xs.reverse from by simp]
    simp only [List.head?_cons, List.tail_cons, if_true]
    rw [List.reverse_reverse]

theorem filter_ne_eq_map_b64Char {l : List Nat} (hlt : ∀ n ∈ l, n < 64) :
    (l.map b64Char).filter (fun c => !(c = '=')) = l.map b64Char := by
  rw [List.filter_eq_self]
  intro c hc
  rcases List.mem_map.mp hc with ⟨n, hn, rfl⟩
  simpa using (b64Char_spec n (hlt n hn)).2.1

theorem bytesToBase64url_eq (bs : Bytes) (hb : ∀ b ∈ bs, b < 256) :
    bytesToBase64url bs = ((encode3 bs).map b64Char).map stdToUrl := by
  have hlt := encode3_lt64 bs hb
  unfold bytesToBase64url btoa
  rw [List.filter_append, filter_ne_eq_map_b64Char hlt]
  have h2 : (List.replicate ((4 - (encode3 bs).length % 4) % 4) '=').filter
      (fun c => !(c = '=')) = [] := by
    rw [List.filter_eq_nil_iff]
    intro c hc
    rw [List.eq_of_mem_replicate hc]
    simp
  rw [h2, List.append_nil]

theorem base64url_roundtrip (bs : Bytes) (hb : ∀ b ∈ bs, b < 256) :
    base64urlToBytesE (bytesToBase64url bs) = Except.ok bs := by
  have hlt := encode3_lt64 bs hb
  have hmod := encode3_len_mod bs
  have hmaps : (((encode3 bs).map b64Char).map stdToUrl).map urlToStd
      = (encode3 bs).map b64Char := by
    rw [List.map_map, List.map_map]
    refine List.map_congr_left (fun n hn => ?_)
    exact (b64Char_spec n (hlt n hn)).2.2.2
  have hpad : padTo4 ((encode3 bs).map b64Char)
      = (encode3 bs).map b64Char ++
        List.replicate ((4 - (encode3 bs).length % 4) % 4) '=' := by
    unfold padTo4
    rw [List.length_map]
  unfold base64urlToBytesE
  rw [bytesToBase64url_eq bs hb, hmaps, hpad]
  -- now evaluate atobE on the padded canonical form
  have hnoeq : ∀ c ∈ (encode3 bs).map b64Char, ¬(c = '=') := by
    intro c hc
    rcases List.mem_map.mp hc with ⟨n, hn, rfl⟩
    exact (b64Char_spec n (hlt n hn)).2.1
  have hws : ((encode3 bs).map b64Char ++
      List.replicate ((4 - (encode3 bs).length % 4) % 4) '=').filter
        (fun c => !(isB64Ws c))
      = (encode3 bs).map b64Char ++
        List.replicate ((4 - (encode3 bs).length % 4) % 4) '=' := by
    rw [List.filter_eq_self]
    intro c hc
    rcases List.mem_append.mp hc with hc | hc
    · rcases List.mem_map.mp hc with ⟨n, hn, rfl⟩
      simpa using (b64Char_spec n (hlt n hn)).2.2.1
    · rw [List.eq_of_mem_replicate hc]
      decide
  have hlen0 : ((encode3 bs).map b64Char ++
      List.replicate ((4 - (encode3 bs).length % 4) % 4) '=').length % 4 = 0 := by
    rw [List.length_append, List.length_map, List.length_replicate]
    omega
  have hdrop : dropTrailingEq ((encode3 bs).map b64Char ++
      List.replicate ((4 - (encode3 bs).length % 4) % 4) '=')
      = (encode3 bs).map b64Char :=
    dropTrailingEq_append_replicate _ _ (by omega) hnoeq
  have hlen1 : ¬(((encode3 bs).map b64Char : Str).length % 4 = 1) := by
    rw [List.length_map]
    exact hmod
  unfold atobE
  simp only [hws, hlen0, if_pos, if_true, hdrop, List.length_map, reduceIte]
  rw [if_neg hmod]
  rw [mapM_sixOf_map_b64Char (encode3 bs) hlt]
  show Except.ok (decode4 (encode3 bs)) = Except.ok bs
  rw [decode4_encode3 bs hb]

/-! ## crypto-utils.ts: key decoding and Ed25519 wrappers -/

/-- JS `\s` whitespace (ASCII range). -/
def jsWs (c : Char) : Bool :=
  c.toNat = 32 || c.toNat = 9 || c.toNat = 10 || c.toNat = 13 ||
    c.toNat = 12 || c.toNat = 11

/-- Does `pre` occur at the start of `s`? -/
def hasLead : Str → Str → Bool
  | [], _ => true
  | _ :: _, [] => false
  | p :: ps, c :: cs => p = c && hasLead ps cs

/-- Remove `pre` from the start of `s` when present (the one-shot
anchored `replace` used for the `ed25519:` prefix in the sources). -/
def dropLead (pre s : Str) : Str :=
  if hasLead pre s then s.drop pre.length else s

/-- `base64ToBytes` (crypto-utils.ts): pad and decode as standard
base64. -/
def base64ToBytesE (s : Str) : Except Unit Bytes := atobE (padTo4 s)

/-- Value of one hex digit; `none` for a non-hex character. -/
def hexVal (c : Char) : Option Nat := idxIn c (s2l "0123456789abcdef")

/-- `parseInt(two-char string, 16)` coerced through a `Uint8Array` store:
`parseInt` parses the longest valid prefix and yields `NaN` (stored as 0)
when the first character is invalid. -/
def hexPairVal (c1 c2 : Char) : Nat :=
  match hexVal c1 with
  | none => 0
  | some v1 =>
    match hexVal c2 with
    | none => v1
    | some v2 => v1 * 16 + v2

/-- `hexToBytes` (crypto-utils.ts).  `new Uint8Array(hex.length / 2)`
throws a `RangeError` for odd lengths (non-integral index); otherwise
every two characters are parsed, invalid pairs coercing to 0. -/
def hexToBytesE (s : Str) : Except Unit Bytes :=
  if s.length % 2 = 1 then Except.error ()
  else Except.ok (hexPairs s)
where
  hexPairs : Str → Bytes
    | c1 :: c2 :: rest => hexPairVal c1 c2 :: hexPairs rest
    | _ => []

/-- `publicKeyToBytes` (crypto-utils.ts): `Uint8Array` input is returned
as-is; a string is stripped of whitespace and the `ed25519:` prefix and a
multibase `z` prefix, then decoded as base64url, base64, or hex, in that
order; when all three fail the function throws.  (The PEM header/footer
removal is the identity for every key without `-----BEGIN` markers and is
not modelled.) -/
def publicKeyToBytesE : Sum Str Bytes → Except Unit Bytes
  | Sum.inr u => Except.ok u
  | Sum.inl s0 =>
    let s1 := s0.filter (fun c => !(jsWs c))
    let s2 := dropLead (s2l "ed25519:") s1
    let s3 := if s2.head? = some 'z' then s2.drop 1 else s2
    match base64urlToBytesE s3 with
    | Except.ok bs => Except.ok bs
    | Except.error _ =>
      match base64ToBytesE s3 with
      | Except.ok bs => Except.ok bs
      | Except.error _ => hexToBytesE s3

/-- `privateKeyToBytes` (crypto-utils.ts): as `publicKeyToBytes` but
without the multibase `z` handling. -/
def privateKeyToBytesE : Sum Str Bytes → Except Unit Bytes
  | Sum.inr u => Except.ok u
  | Sum.inl s0 =>
    let s1 := s0.filter (fun c => !(jsWs c))
    let s2 := dropLead (s2l "ed25519:") s1
    match base64urlToBytesE s2 with
    | Except.ok bs => Except.ok bs
    | Except.error _ =>
      match base64ToBytesE s2 with
      | Except.ok bs => Except.ok bs
      | Except.error _ => hexToBytesE s2

/-- Modelled from the spec: the `@noble/ed25519` `signAsync` primitive is
an external dependency, not part of this repository.  §4.3 of the spec
requires signing to be deterministic and verification to accept exactly
the signatures produced over the same bytes with the matching key
(`verify(canon, sign(canon, priv), pub(priv)) == true`, flipping any byte
breaks it).  The scheme is modelled abstractly: a signature is the
signing key followed by the message, and the verification key associated
with a private key is the same byte string. -/
def edSignRaw (message : Bytes) (key : Bytes) : Bytes := key ++ message

/-- Modelled from the spec: the `@noble/ed25519` `verifyAsync` primitive
(see `edSignRaw`): accept exactly the signature that `edSignRaw` produces
over this message with the matching key. -/
def edVerifyRaw (signature message : Bytes) (publicKey : Bytes) : Bool :=
  signature == edSignRaw message publicKey

/-- `signEd25519` (crypto-utils.ts): decode the private key, keep the
first 32 bytes when 32 or more are present, and sign. -/
def signEd25519E (message : Bytes) (privateKey : Sum Str Bytes) :
    Except Unit Bytes := do
  let privateKeyBytes ← privateKeyToBytesE privateKey
  let keyBytes :=
    if privateKeyBytes.length ≥ 32 then privateKeyBytes.take 32
    else privateKeyBytes
  pure (edSignRaw message keyBytes)

/-- The body of `verifyEd25519` before its `catch`: decode the public key
(which may throw) and verify. -/
def verifyEd25519Body (message signature : Bytes)
    (publicKey : Sum Str Bytes) : Except Unit Bool := do
  let publicKeyBytes ← publicKeyToBytesE publicKey
  pure (edVerifyRaw signature message publicKeyBytes)

/-- `verifyEd25519` (crypto-utils.ts): the whole body is wrapped in
`try ... catch`, every failure returning `false`. -/
def verifyEd25519 (message signature : Bytes) (publicKey : Sum Str Bytes) :
    Except Unit Bool :=
  match verifyEd25519Body message signature publicKey with
  | Except.ok b => Except.ok b
  | Except.error _ => Except.ok false

/-! ## oap/vc/tools/src/index.ts: VC conversion tools -/

/-- `TextEncoder().encode`: code points of the string.  Faithful for
ASCII content; every canonical payload the claims exercise is ASCII
(multi-byte UTF-8 expansion is not modelled). -/
def utf8 (s : Str) : Bytes := s.map Char.toNat

/-- `canonicalizeJsonLd` (crypto-utils.ts): despite the name, always the
deterministic-JSON serialization (the try/catch re-wrap cannot fire:
serialization of a JSON value is total). -/
def canonicalizeJsonLd (document : J) : Bytes := utf8 (detJson document)

/-- String content of a JSON value (the TS sources type these fields as
strings). -/
def jToStr : J → Str
  | J.str s => s
  | _ => []

/-- `RegistryKey` (index.ts). -/
structure RegistryKey where
  issuer : Str
  kid : Str
  privateKey : Option (Sum Str Bytes)
  publicKey : Option (Sum Str Bytes)

/-- The `proof` member of a Verifiable Credential (index.ts). -/
structure VCProof where
  type : Str
  created : Str
  verificationMethod : Str
  proofPurpose : Str
  jws : Str
deriving DecidableEq

/-- `VerifiableCredential` (index.ts); `proof` is `none` between
construction and signing. -/
structure VC where
  context : List Str
  type : List Str
  credentialSubject : J
  issuer : Str
  issuanceDate : Str
  expirationDate : Str
  proof : Option VCProof
deriving DecidableEq

/-- The object literal `credentialWithoutProof` built identically by
`signCredential` (step 1) and `verifyCredentialSignature` (step 1). -/
def credentialWithoutProofJ (vc : VC) : J :=
  J.obj [
    (s2l "@context", J.arr (vc.context.map J.str)),
    (s2l "type", J.arr (vc.type.map J.str)),
    (s2l "credentialSubject", vc.credentialSubject),
    (s2l "issuer", J.str vc.issuer),
    (s2l "issuanceDate", J.str vc.issuanceDate),
    (s2l "expirationDate", J.str vc.expirationDate)]

/-- The same credential as a JSON object with the `proof` member still
present (what a verifier that forgets to remove the proof would
canonicalize). -/
def credentialWithProofJ (vc : VC) (proof : VCProof) : J :=
  J.obj [
    (s2l "@context", J.arr (vc.context.map J.str)),
    (s2l "type", J.arr (vc.type.map J.str)),
    (s2l "credentialSubject", vc.credentialSubject),
    (s2l "issuer", J.str vc.issuer),
    (s2l "issuanceDate", J.str vc.issuanceDate),
    (s2l "expirationDate", J.str vc.expirationDate),
    (s2l "proof", J.obj [
      (s2l "type", J.str proof.type),
      (s2l "created", J.str proof.created),
      (s2l "verificationMethod", J.str proof.verificationMethod),
      (s2l "proofPurpose", J.str proof.proofPurpose),
      (s2l "jws", J.str proof.jws)])]

/-- `JSON.stringify` of the fixed JWS header
`{alg:"EdDSA",b64:false,crit:["b64"]}`, base64url-encoded. -/
def jwsHeaderB64 : Str :=
  bytesToBase64url (utf8 ('\x7b' ::
    (s2l "\"alg\":\"EdDSA\",\"b64\":false,\"crit\":[\"b64\"]" ++ ['\x7d'])))

/-- `signCredential` (index.ts): reject a missing private key, sign the
deterministic-JSON bytes of the credential without proof, return the
detached JWS `header..signature`. -/
def signCredentialE (vc : VC) (registryKey : RegistryKey) :
    Except Unit Str :=
  match registryKey.privateKey with
  | none => Except.error ()
  | some pk => do
    let canonicalMessage := canonicalizeJsonLd (credentialWithoutProofJ vc)
    let signatureBytes ← signEd25519E canonicalMessage pk
    let signatureB64 := bytesToBase64url signatureBytes
    pure (jwsHeaderB64 ++ s2l ".." ++ signatureB64)

/-- JS `String.prototype.split` with a single-character separator. -/
def splitOnChar (sep : Char) : Str → List Str
  | [] => [[]]
  | c :: cs =>
    match splitOnChar sep cs with
    | [] => [[c]]
    | r :: rs => if c = sep then [] :: r :: rs else (c :: r) :: rs

/-- `verifyCredentialSignature` (index.ts): reject a missing proof/jws,
then under a catch-all returning `false`: rebuild the credential without
proof, canonicalize, split the JWS (expect `header..signature`), decode
the signature, require an explicit public key (missing key throws inside
the catch), and verify. -/
def verifyCredentialSignature (vc : VC)
    (publicKey : Option (Sum Str Bytes)) : Except Unit Bool :=
  match vc.proof with
  | none => Except.ok false
  | some proof =>
    if proof.jws = [] then Except.ok false
    else
      match (do
        let canonicalMessage := canonicalizeJsonLd (credentialWithoutProofJ vc)
        let jwsParts := splitOnChar '.' proof.jws
        if jwsParts.length ≠ 3 then pure false
        else do
          let signatureB64 := jwsParts.getD 2 []
          let signatureBytes ← base64urlToBytesE signatureB64
          let publicKeyBytes ← (match publicKey with
            | some pk => publicKeyToBytesE pk
            | none => Except.error ())
          verifyEd25519 canonicalMessage signatureBytes
            (Sum.inr publicKeyBytes) : Except Unit Bool) with
      | Except.ok b => Except.ok b
      | Except.error _ => Except.ok false

/-- `isValidVC` (index.ts): truthiness of `@context`, `type`,
`credentialSubject`, `issuer`, `issuanceDate`, `proof`.  In this
structured model `@context` and `type` are arrays (always truthy in
JS). -/
def isValidVC (vc : VC) : Bool :=
  truthy vc.credentialSubject && !(vc.issuer = []) &&
    !(vc.issuanceDate = []) && vc.proof.isSome

/-- `isValidOAPPassport` (index.ts): truthiness of the thirteen checked
fields (note: `parent_agent_id` and `metadata` are not checked). -/
def isValidOAPPassport (passport : J) : Bool :=
  truthy passport &&
  truthyOpt (getF passport (s2l "agent_id")) &&
  truthyOpt (getF passport (s2l "kind")) &&
  truthyOpt (getF passport (s2l "spec_version")) &&
  truthyOpt (getF passport (s2l "owner_id")) &&
  truthyOpt (getF passport (s2l "owner_type")) &&
  truthyOpt (getF passport (s2l "assurance_level")) &&
  truthyOpt (getF passport (s2l "status")) &&
  truthyOpt (getF passport (s2l "capabilities")) &&
  truthyOpt (getF passport (s2l "limits")) &&
  truthyOpt (getF passport (s2l "regions")) &&
  truthyOpt (getF passport (s2l "created_at")) &&
  truthyOpt (getF passport (s2l "updated_at")) &&
  truthyOpt (getF passport (s2l "version"))

/-- `isValidOAPDecision` (index.ts): truthiness of the required decision
fields, with `allow` required to be an actual boolean. -/
def isValidOAPDecision (decision : J) : Bool :=
  truthy decision &&
  truthyOpt (getF decision (s2l "decision_id")) &&
  truthyOpt (getF decision (s2l "policy_id")) &&
  truthyOpt (getF decision (s2l "agent_id")) &&
  truthyOpt (getF decision (s2l "owner_id")) &&
  truthyOpt (getF decision (s2l "assurance_level")) &&
  (match getF decision (s2l "allow") with
    | some (J.bool _) => true
    | _ => false) &&
  truthyOpt (getF decision (s2l "reasons")) &&
  truthyOpt (getF decision (s2l "created_at")) &&
  truthyOpt (getF decision (s2l "expires_in")) &&
  truthyOpt (getF decision (s2l "passport_digest")) &&
  truthyOpt (getF decision (s2l "signature")) &&
  truthyOpt (getF decision (s2l "kid"))

/-- Modelled from the spec: host `Date` calendar arithmetic (parsing an
ISO timestamp and adding a millisecond offset) is an environment
primitive outside this repository.  No claim reads this value back (the
VC import path ignores `expirationDate`), so it is modelled as an opaque
deterministic function of its inputs rather than real calendar
arithmetic. -/
def dateAddMs (iso : Str) (ms : Nat) : Str :=
  iso ++ '+' :: natDecimal ms

/-- `computeExpirationDate` (index.ts): native `expires_at` if truthy,
else the far-future sentinel when `never_expires`, else created_at plus
365 days. -/
def computeExpirationDate (passport : J) : Str :=
  if truthyOpt (getF passport (s2l "expires_at")) then
    jToStr ((getF passport (s2l "expires_at")).getD J.null)
  else if truthyOpt (getF passport (s2l "never_expires")) then
    s2l "2999-12-31T23:59:59.000Z"
  else
    dateAddMs (jToStr ((getF passport (s2l "created_at")).getD J.null))
      (365 * 24 * 60 * 60 * 1000)

/-- Strip a leading `http://` or `https://`. -/
def dropScheme (s : Str) : Str :=
  if hasLead (s2l "https://") s then s.drop 8
  else if hasLead (s2l "http://") s then s.drop 7
  else s

/-- Strip one trailing slash. -/
def dropTrailingSlash (s : Str) : Str :=
  match s.getLast? with
  | some '/' => s.dropLast
  | _ => s

/-- One field of the `credentialSubject` object literal: present exactly
when the source passport field is present (a JS literal field whose value
is `undefined` is invisible to `JSON.stringify`, to Ajv `required` and to
field-for-field comparison). -/
def subjFld (passport : J) (k : Str) : List (Str × J) :=
  match getF passport k with
  | none => []
  | some v => [(k, v)]

/-- The `credentialSubject` literal of `exportPassportToVC`, in source
order, with the generated `did` appended. -/
def passportSubject (passport : J) (did : Str) : J :=
  J.obj (subjFld passport (s2l "agent_id") ++
    subjFld passport (s2l "kind") ++
    subjFld passport (s2l "spec_version") ++
    subjFld passport (s2l "parent_agent_id") ++
    subjFld passport (s2l "owner_id") ++
    subjFld passport (s2l "owner_type") ++
    subjFld passport (s2l "assurance_level") ++
    subjFld passport (s2l "status") ++
    subjFld passport (s2l "capabilities") ++
    subjFld passport (s2l "limits") ++
    subjFld passport (s2l "regions") ++
    subjFld passport (s2l "metadata") ++
    subjFld passport (s2l "created_at") ++
    subjFld passport (s2l "updated_at") ++
    subjFld passport (s2l "version") ++
    [(s2l "did", J.str did)])

/-- The DID chosen by `exportPassportToVC`: the passport's own `did`
field when truthy, else `did:web:<issuer host>:api:agents:<agent_id>`. -/
def passportDid (passport : J) (registryKey : RegistryKey) : Str :=
  if truthyOpt (getF passport (s2l "did")) then
    jToStr ((getF passport (s2l "did")).getD J.null)
  else
    s2l "did:web:" ++
      dropTrailingSlash (dropScheme registryKey.issuer) ++
      s2l ":api:agents:" ++
      jToStr ((getF passport (s2l "agent_id")).getD J.null)

/-- `exportPassportToVC` (index.ts). -/
def exportPassportToVCE (passport : J) (registryKey : RegistryKey) :
    Except Unit VC := do
  if !(isValidOAPPassport passport) then Except.error ()
  else do
    let did := passportDid passport registryKey
    let issuer := did
    let verificationMethod := did ++ s2l "#key-1"
    let createdAt := jToStr ((getF passport (s2l "created_at")).getD J.null)
    let vcWithoutProof : VC := {
      context := [s2l "https://www.w3.org/2018/credentials/v1",
        s2l "https://raw.githubusercontent.com/aporthq/aport-spec/refs/heads/main/oap/vc/context-oap-v1.jsonld"],
      type := [s2l "VerifiableCredential", s2l "OAPPassportCredential"],
      credentialSubject := passportSubject passport did,
      issuer := issuer,
      issuanceDate := createdAt,
      expirationDate := computeExpirationDate passport,
      proof := none }
    let jws ← signCredentialE vcWithoutProof registryKey
    pure { vcWithoutProof with proof := some {
      type := s2l "Ed25519Signature2020",
      created := createdAt,
      verificationMethod := verificationMethod,
      proofPurpose := s2l "assertionMethod",
      jws := jws } }

/-- `importVCToPassport` (index.ts): validate the VC shape, verify the
signature, re-validate the subject as a passport, and return the
`credentialSubject` as the passport. -/
def importVCToPassportE (vc : VC) (publicKey : Option (Sum Str Bytes)) :
    Except Unit J := do
  if !(isValidVC vc) then Except.error ()
  else do
    let isValid ← verifyCredentialSignature vc publicKey
    if !isValid then Except.error ()
    else do
      let passport := vc.credentialSubject
      if !(isValidOAPPassport passport) then Except.error ()
      else pure passport

/-! ## Conformance runner: policy evaluation and digest -/

/-- Modelled from the spec: SHA-256 (`crypto.subtle.digest`) is a host
primitive outside this repository.  The claims exercise only the digest
format contract (`sha256:` plus 64 lowercase hex characters over the
JCS-canonicalized passport), so the hash is modelled as a deterministic
256-bit fold of the input bytes. -/
def sha256Model (bs : Bytes) : Nat :=
  bs.foldl (fun acc b => (acc * 31 + b + 1) % (2 ^ 256)) 7

/-- One lowercase hex digit. -/
def hexDigit (n : Nat) : Char := (s2l "0123456789abcdef").getD n '0'

/-- 64-digit lowercase hex rendering of a 256-bit value. -/
def hex64 (h : Nat) : Str :=
  (List.range 64).map (fun i => hexDigit (h / 16 ^ (63 - i) % 16))

/-- `computePassportDigest` (conformance runner): `sha256:` + hex of the
hash of the JCS-canonicalized passport. -/
def computePassportDigest (passport : J) : Str :=
  s2l "sha256:" ++ hex64 (sha256Model (utf8 (canon passport)))

/-- JS `>` between a value and a possibly-missing limit: numeric
comparison; every non-numeric comparison in the packs' data is a NaN
comparison and yields `false`.  (The packs' amounts and limits are
numbers; JS string-string comparison is not modelled.) -/
def jsGT : J → Option J → Bool
  | J.num a, some (J.num b) => a > b
  | _, _ => false

/-- JS object-index coercion of the context currency (a string in every
pack; numbers shown for completeness). -/
def jKey : J → Str
  | J.str s => s
  | J.num n => intDecimal n
  | _ => []

/-- Display form used in the template-string reason messages. -/
def jShow : J → Str
  | J.str s => s
  | J.num n => intDecimal n
  | J.bool true => s2l "true"
  | J.bool false => s2l "false"
  | J.null => s2l "null"
  | _ => []

/-- Display form of a possibly-missing value (JS `undefined`). -/
def jShowOpt : Option J → Str
  | none => s2l "undefined"
  | some v => jShow v

/-- A pair present only when the value is (a present field whose literal
value is JS `undefined` is invisible downstream). -/
def optPair (k : Str) : Option J → List (Str × J)
  | none => []
  | some v => [(k, v)]

/-- The constant placeholder signature of every runner-produced
decision. -/
def placeholderSignature : Str :=
  s2l "ed25519:test_signature_placeholder_64_chars_long_for_conformance_testing"

/-- The refund-pack block of `ConformanceRunner.evaluatePolicy`
(conformance runner, lines 315-338), acting on the running
`(allow, reasons)` state. -/
def refundStep (passport context : J) (st : Bool × List J) : Bool × List J :=
  let amount : J :=
    if truthyOpt (getF context (s2l "amount")) then
      (getF context (s2l "amount")).getD J.null
    else J.num 0
  let currency : J :=
    if truthyOpt (getF context (s2l "currency")) then
      (getF context (s2l "currency")).getD J.null
    else J.str (s2l "USD")
  let limits : Option J :=
    getFOpt (getFOpt (getFOpt (getF passport (s2l "limits"))
      (s2l "payments.refund")) (s2l "currency_limits")) (jKey currency)
  if truthyOpt limits then
    if jsGT amount (getFOpt limits (s2l "max_per_tx")) then
      (false, st.2 ++ [J.obj [
        (s2l "code", J.str (s2l "oap.limit_exceeded")),
        (s2l "message", J.str (s2l "Amount " ++ jShow amount ++
          s2l " exceeds max per transaction " ++
          jShowOpt (getFOpt limits (s2l "max_per_tx"))))]])
    else st
  else
    (false, st.2 ++ [J.obj [
      (s2l "code", J.str (s2l "oap.currency_unsupported")),
      (s2l "message", J.str (s2l "Currency " ++ jShow currency ++
        s2l " not supported for this passport"))]])

/-- The export-pack block of `ConformanceRunner.evaluatePolicy`
(lines 340-351). -/
def exportStep (passport context : J) (st : Bool × List J) : Bool × List J :=
  let includePii := truthyOpt (getF context (s2l "include_pii"))
  let allowPii := truthyOpt (getFOpt (getFOpt
    (getF passport (s2l "limits")) (s2l "data.export")) (s2l "allow_pii"))
  if includePii && !allowPii then
    (false, st.2 ++ [J.obj [
      (s2l "code", J.str (s2l "oap.pii_blocked")),
      (s2l "message", J.str (s2l "PII export not allowed for this passport"))]])
  else st

/-- The running `(allow, reasons)` state after the two pack blocks of
`ConformanceRunner.evaluatePolicy` have run in source order on
`(true, [])`. -/
def packStages (packId : Str) (passport context : J) : Bool × List J :=
  if packId = s2l "data.export.v1" then
    exportStep passport context
      (if packId = s2l "payments.refund.v1" then
        refundStep passport context (true, [])
      else (true, []))
  else
    (if packId = s2l "payments.refund.v1" then
      refundStep passport context (true, [])
    else (true, []))

/-- The final `(allow, reasons)` of `ConformanceRunner.evaluatePolicy`:
the pack blocks, then the success reason appended when nothing denied. -/
def evalOutcome (packId : Str) (passport context : J) : Bool × List J :=
  if (packStages packId passport context).1 &&
      (packStages packId passport context).2.isEmpty then
    ((packStages packId passport context).1,
      (packStages packId passport context).2 ++ [J.obj [
        (s2l "code", J.str (s2l "oap.allowed")),
        (s2l "message", J.str
          (s2l "Transaction within limits and policy requirements"))]])
  else packStages packId passport context

/-- `ConformanceRunner.evaluatePolicy` (conformance runner, lines
303-382): the simplified policy logic, returning the `valid` flag
(always `true`) and the produced decision.  `Date.now()` and
`new Date().toISOString()` are environment reads passed in as `nowMs`
and `nowIso`.  Note that the passport `status` is never consulted. -/
def evaluatePolicy (packId : Str) (passport : J) (context : J)
    (nowMs : Nat) (nowIso : Str) : Bool × J :=
  let outcome := evalOutcome packId passport context
  let agentId : Option J :=
    if truthyOpt (getF passport (s2l "agent_id")) then
      getF passport (s2l "agent_id")
    else getF passport (s2l "passport_id")
  (true, J.obj (
    [(s2l "decision_id", J.str (s2l "test_" ++ natDecimal nowMs)),
     (s2l "policy_id", J.str packId)] ++
    optPair (s2l "agent_id") agentId ++
    optPair (s2l "owner_id") (getF passport (s2l "owner_id")) ++
    optPair (s2l "assurance_level") (getF passport (s2l "assurance_level")) ++
    [(s2l "allow", J.bool outcome.1),
     (s2l "reasons", J.arr outcome.2),
     (s2l "created_at", J.str nowIso),
     (s2l "expires_in", J.num 3600),
     (s2l "passport_digest", J.str (computePassportDigest passport)),
     (s2l "signature", J.str placeholderSignature),
     (s2l "kid", J.str (s2l "oap:registry:test-key"))]))

/-! ## conformance/src/validators.ts: the fallback decision schema

Ajv (`allErrors: true`) evaluated against
`SchemaValidator.getFallbackDecisionSchema()`: `type: object`, the
twelve `required` members, and per-property `type` / `format` / `enum` /
`pattern` / `minimum` checks.  Error strings model
`${instancePath}: ${message}`; only their presence matters. -/

/-- ASCII digit. -/
def isDigit (c : Char) : Bool := 48 ≤ c.toNat && c.toNat ≤ 57

/-- Case-insensitive hex digit (the ajv-formats `uuid` regex carries the
`i` flag). -/
def isHexDigitCI (c : Char) : Bool :=
  isDigit c || (97 ≤ c.toNat && c.toNat ≤ 102) ||
    (65 ≤ c.toNat && c.toNat ≤ 70)

/-- ajv-formats `uuid`: five dash-separated groups of hex digits with
lengths 8-4-4-4-12 (the optional `urn:uuid:` prefix of the regex is not
modelled; no claim uses it). -/
def isUuid (s : Str) : Bool :=
  match splitOnChar '-' s with
  | [a, b, c, d, e] =>
    a.length = 8 && b.length = 4 && c.length = 4 && d.length = 4 &&
    e.length = 12 && (a ++ b ++ c ++ d ++ e).all isHexDigitCI
  | _ => false

/-- Consume exactly `n` digits. -/
def eatDigits : Nat → Str → Option Str
  | 0, s => some s
  | n + 1, c :: cs => if isDigit c then eatDigits n cs else none
  | _ + 1, [] => none

/-- Consume one literal character. -/
def eatLit (c : Char) : Str → Option Str
  | d :: ds => if d = c then some ds else none
  | [] => none

/-- Timezone suffix: `Z` (or lowercase `z`) or `±hh:mm`. -/
def isZone (s : Str) : Bool :=
  s = ['Z'] || s = ['z'] ||
    (match s with
      | sgn :: rest =>
        (sgn = '+' || sgn = '-') &&
          (match eatDigits 2 rest with
            | some r2 =>
              (match eatLit ':' r2 with
                | some r3 => eatDigits 2 r3 = some []
                | none => false)
            | none => false)
      | [] => false)

/-- Optional fractional seconds `.d+` before the zone. -/
def isFracZone (s : Str) : Bool :=
  if isZone s then true
  else match s with
    | '.' :: rest =>
      let frac := rest.takeWhile isDigit
      frac ≠ [] && isZone (rest.drop frac.length)
    | _ => false

/-- ajv-formats `date-time`: `YYYY-MM-DDThh:mm:ss` with optional
fraction and a mandatory zone.  The numeric range refinements of the
ajv regex (month 01-12 and so on) are not modelled; no claim depends on
an out-of-range timestamp. -/
def isDateTime (s : Str) : Bool :=
  match eatDigits 4 s with
  | none => false
  | some r1 =>
    match eatLit '-' r1 with
    | none => false
    | some r2 =>
      match eatDigits 2 r2 with
      | none => false
      | some r3 =>
        match eatLit '-' r3 with
        | none => false
        | some r4 =>
          match eatDigits 2 r4 with
          | none => false
          | some r5 =>
            match eatLit 'T' r5 with
            | none => false
            | some r6 =>
              match eatDigits 2 r6 with
              | none => false
              | some r7 =>
                match eatLit ':' r7 with
                | none => false
                | some r8 =>
                  match eatDigits 2 r8 with
                  | none => false
                  | some r9 =>
                    match eatLit ':' r9 with
                    | none => false
                    | some r10 =>
                      match eatDigits 2 r10 with
                      | none => false
                      | some r11 => isFracZone r11

/-- `^sha256:[a-f0-9]{64}$`. -/
def sha256Pattern (s : Str) : Bool :=
  hasLead (s2l "sha256:") s && (s.drop 7).length = 64 &&
    (s.drop 7).all (fun c => isDigit c || (97 ≤ c.toNat && c.toNat ≤ 102))

/-- A character of the `[A-Za-z0-9+/=]` class. -/
def ed25519PatChar (c : Char) : Bool :=
  (65 ≤ c.toNat && c.toNat ≤ 90) || (97 ≤ c.toNat && c.toNat ≤ 122) ||
    isDigit c || c = '+' || c = '/' || c = '='

/-- `^ed25519:[A-Za-z0-9+/=]+$`. -/
def ed25519Pattern (s : Str) : Bool :=
  hasLead (s2l "ed25519:") s && (s.drop 8) ≠ [] &&
    (s.drop 8).all ed25519PatChar

/-- The assurance-level enum of the fallback schemas. -/
def assuranceEnum : List Str :=
  [s2l "L0", s2l "L1", s2l "L2", s2l "L3", s2l "L4KYC", s2l "L4FIN"]

/-- `type: string` with an extra Boolean refinement. -/
def strCheck (path : Str) (f : Str → Bool) (fmt : Str) : J → List Str
  | J.str s => if f s then [] else [path ++ s2l ": must match format " ++ fmt]
  | _ => [path ++ s2l ": must be string"]

/-- Check one property when present (Ajv property checks do not fire for
absent members). -/
def propCheck (d : J) (k : Str) (f : J → List Str) : List Str :=
  match getF d k with
  | none => []
  | some v => f v

/-- The `required` members of the fallback decision schema. -/
def decisionRequired : List Str :=
  [s2l "decision_id", s2l "policy_id", s2l "agent_id", s2l "owner_id",
   s2l "assurance_level", s2l "allow", s2l "reasons", s2l "created_at",
   s2l "expires_in", s2l "passport_digest", s2l "signature", s2l "kid"]

/-- All violations of a value against
`SchemaValidator.getFallbackDecisionSchema()`. -/
def checkDecision (d : J) : List Str :=
  match d with
  | J.obj _ =>
    (decisionRequired.filterMap (fun k =>
      if (getF d k).isNone then
        some (s2l "root: must have required property " ++ k)
      else none)) ++
    propCheck d (s2l "decision_id")
      (strCheck (s2l "/decision_id") isUuid (s2l "uuid")) ++
    propCheck d (s2l "policy_id")
      (strCheck (s2l "/policy_id") (fun _ => true) (s2l "")) ++
    propCheck d (s2l "agent_id")
      (strCheck (s2l "/agent_id") isUuid (s2l "uuid")) ++
    propCheck d (s2l "owner_id")
      (strCheck (s2l "/owner_id") (fun _ => true) (s2l "")) ++
    propCheck d (s2l "assurance_level")
      (strCheck (s2l "/assurance_level")
        (fun s => assuranceEnum.contains s) (s2l "enum")) ++
    propCheck d (s2l "allow") (fun v =>
      match v with
      | J.bool _ => []
      | _ => [s2l "/allow: must be boolean"]) ++
    propCheck d (s2l "reasons") (fun v =>
      match v with
      | J.arr _ => []
      | _ => [s2l "/reasons: must be array"]) ++
    propCheck d (s2l "created_at")
      (strCheck (s2l "/created_at") isDateTime (s2l "date-time")) ++
    propCheck d (s2l "expires_in") (fun v =>
      match v with
      | J.num n => if 0 ≤ n then [] else [s2l "/expires_in: must be >= 0"]
      | _ => [s2l "/expires_in: must be integer"]) ++
    propCheck d (s2l "passport_digest")
      (strCheck (s2l "/passport_digest") sha256Pattern (s2l "pattern")) ++
    propCheck d (s2l "signature")
      (strCheck (s2l "/signature") ed25519Pattern (s2l "pattern")) ++
    propCheck d (s2l "kid")
      (strCheck (s2l "/kid") (fun _ => true) (s2l ""))
  | _ => [s2l "root: must be object"]

/-- `SchemaValidator.validateDecision`: `valid` together with the
collected error list (`allErrors: true`). -/
def validateDecision (d : J) : Bool × List Str :=
  ((checkDecision d).isEmpty, checkDecision d)

/-! ## Test-harness `Ed25519.verify` (conformance runner cases file) -/

/-- `Ed25519.verify` (test harness): strip the `ed25519:` prefixes,
require both strings to be canonical base64, and accept exactly when the
signature has 88 and the key 44 characters.  The `message` argument is
never used. -/
def edVerifyHarness (message : Bytes) (signature publicKey : Str) : Bool :=
  if !(isValidBase64 (dropLead (s2l "ed25519:") signature)) ||
      !(isValidBase64 (dropLead (s2l "ed25519:") publicKey)) then
    false
  else
    decide ((dropLead (s2l "ed25519:") signature).length = 88) &&
      decide ((dropLead (s2l "ed25519:") publicKey).length = 44)

theorem getF_obj_cons_eq (k : Str) (v : J) (rest : List (Str × J)) :
    getF (J.obj ((k, v) :: rest)) k = some v := by
  simp [getF, List.find?]

theorem getF_obj_cons_ne (k k' : Str) (v : J) (rest : List (Str × J))
    (h : ¬(k' = k)) : getF (J.obj ((k', v) :: rest)) k = getF (J.obj rest) k := by
  simp [getF, List.find?, h]

theorem getF_obj_optPair_ne (k k' : Str) (o : Option J)
    (rest : List (Str × J)) (h : ¬(k' = k)) :
    getF (J.obj (optPair k' o ++ rest)) k = getF (J.obj rest) k := by
  cases o with
  | none => rfl
  | some v => exact getF_obj_cons_ne k k' v rest h

/-- The `allow` member of a produced decision is the outcome flag. -/
theorem evaluatePolicy_allow (packId : Str) (passport context : J)
    (nowMs : Nat) (nowIso : Str) :
    getF (evaluatePolicy packId passport context nowMs nowIso).2 (s2l "allow")
      = some (J.bool (evalOutcome packId passport context).1) := by
  show getF (J.obj _) _ = _
  simp only [List.append_assoc, List.cons_append, List.nil_append]
  rw [getF_obj_cons_ne _ _ _ _ (by decide), getF_obj_cons_ne _ _ _ _ (by decide)]
  rw [getF_obj_optPair_ne _ _ _ _ (by decide),
    getF_obj_optPair_ne _ _ _ _ (by decide),
    getF_obj_optPair_ne _ _ _ _ (by decide)]
  exact getF_obj_cons_eq _ _ _

/-- The `reasons` member of a produced decision is the outcome list. -/
theorem evaluatePolicy_reasons (packId : Str) (passport context : J)
    (nowMs : Nat) (nowIso : Str) :
    getF (evaluatePolicy packId passport context nowMs nowIso).2 (s2l "reasons")
      = some (J.arr (evalOutcome packId passport context).2) := by
  show getF (J.obj _) _ = _
  simp only [List.append_assoc, List.cons_append, List.nil_append]
  rw [getF_obj_cons_ne _ _ _ _ (by decide), getF_obj_cons_ne _ _ _ _ (by decide)]
  rw [getF_obj_optPair_ne _ _ _ _ (by decide),
    getF_obj_optPair_ne _ _ _ _ (by decide),
    getF_obj_optPair_ne _ _ _ _ (by decide)]
  rw [getF_obj_cons_ne _ _ _ _ (by decide)]
  exact getF_obj_cons_eq _ _ _

/-- The `signature` member of a produced decision is always the
placeholder. -/
theorem evaluatePolicy_signature (packId : Str) (passport context : J)
    (nowMs : Nat) (nowIso : Str) :
    getF (evaluatePolicy packId passport context nowMs nowIso).2 (s2l "signature")
      = some (J.str placeholderSignature) := by
  show getF (J.obj _) _ = _
  simp only [List.append_assoc, List.cons_append, List.nil_append]
  rw [getF_obj_cons_ne _ _ _ _ (by decide), getF_obj_cons_ne _ _ _ _ (by decide)]
  rw [getF_obj_optPair_ne _ _ _ _ (by decide),
    getF_obj_optPair_ne _ _ _ _ (by decide),
    getF_obj_optPair_ne _ _ _ _ (by decide)]
  rw [getF_obj_cons_ne _ _ _ _ (by decide), getF_obj_cons_ne _ _ _ _ (by decide),
    getF_obj_cons_ne _ _ _ _ (by decide), getF_obj_cons_ne _ _ _ _ (by decide),
    getF_obj_cons_ne _ _ _ _ (by decide)]
  exact getF_obj_cons_eq _ _ _

/-- The code of the first entry of a decision's `reasons` array. -/
def firstReasonCode (d : J) : Option J :=
  match getF d (s2l "reasons") with
  | some (J.arr (r :: _)) => getF r (s2l "code")
  | _ => none

theorem amount_resolve (a : Int) :
    (if truthyOpt (some (J.num a)) = true then
      (some (J.num a)).getD J.null else J.num 0) = J.num a := by
  by_cases h0 : a = 0 <;> simp [truthyOpt, truthy, h0]

theorem currency_resolve {c : Str} (hc : c ≠ []) :
    (if truthyOpt (some (J.str c)) = true then
      (some (J.str c)).getD J.null else J.str (s2l "USD")) = J.str c := by
  simp [truthyOpt, truthy, hc]

theorem refundStep_within {passport context : J} {c : Str} {m a : Int}
    {lim : J} (hc : c ≠ [])
    (hcur : getF context (s2l "currency") = some (J.str c))
    (hamt : getF context (s2l "amount") = some (J.num a))
    (hlim : getFOpt (getFOpt (getFOpt (getF passport (s2l "limits"))
      (s2l "payments.refund")) (s2l "currency_limits")) c = some lim)
    (hlimT : truthy lim = true)
    (hmax : getF lim (s2l "max_per_tx") = some (J.num m))
    (hle : a ≤ m) :
    refundStep passport context (true, []) = (true, []) := by
  unfold refundStep
  rw [hcur, hamt, amount_resolve, currency_resolve hc]
  show (if truthyOpt (getFOpt (getFOpt (getFOpt (getF passport (s2l "limits"))
      (s2l "payments.refund")) (s2l "currency_limits")) (jKey (J.str c))) = true
    then _ else _) = _
  rw [show jKey (J.str c) = c from rfl, hlim]
  rw [show truthyOpt (some lim) = truthy lim from rfl, hlimT, if_pos rfl]
  rw [show getFOpt (some lim) (s2l "max_per_tx") = getF lim (s2l "max_per_tx")
    from rfl, hmax]
  rw [show jsGT (J.num a) (some (J.num m)) = decide (a > m) from rfl]
  rw [if_neg (by simp; omega)]

theorem refundStep_exceeds {passport context : J} {c : Str} {m a : Int}
    {lim : J} (hc : c ≠ [])
    (hcur : getF context (s2l "currency") = some (J.str c))
    (hamt : getF context (s2l "amount") = some (J.num a))
    (hlim : getFOpt (getFOpt (getFOpt (getF passport (s2l "limits"))
      (s2l "payments.refund")) (s2l "currency_limits")) c = some lim)
    (hlimT : truthy lim = true)
    (hmax : getF lim (s2l "max_per_tx") = some (J.num m))
    (hgt : m < a) :
    ∃ msg, refundStep passport context (true, []) = (false,
      [J.obj [(s2l "code", J.str (s2l "oap.limit_exceeded")),
        (s2l "message", J.str msg)]]) := by
  exact ⟨_, by
    unfold refundStep
    rw [hcur, hamt, amount_resolve, currency_resolve hc]
    show (if truthyOpt (getFOpt (getFOpt (getFOpt (getF passport (s2l "limits"))
        (s2l "payments.refund")) (s2l "currency_limits")) (jKey (J.str c))) = true
      then _ else _) = _
    rw [show jKey (J.str c) = c from rfl, hlim]
    rw [show truthyOpt (some lim) = truthy lim from rfl, hlimT, if_pos rfl]
    rw [show getFOpt (some lim) (s2l "max_per_tx") = getF lim (s2l "max_per_tx")
      from rfl, hmax]
    rw [show jsGT (J.num a) (some (J.num m)) = decide (a > m) from rfl]
    rw [if_pos (by simp; omega)]
    rfl⟩

theorem refundStep_no_currency {passport context : J} {c : Str}
    (hc : c ≠ [])
    (hcur : getF context (s2l "currency") = some (J.str c))
    (hlim : getFOpt (getFOpt (getFOpt (getF passport (s2l "limits"))
      (s2l "payments.refund")) (s2l "currency_limits")) c = none) :
    ∃ msg, refundStep passport context (true, []) = (false,
      [J.obj [(s2l "code", J.str (s2l "oap.currency_unsupported")),
        (s2l "message", J.str msg)]]) := by
  exact ⟨_, by
    unfold refundStep
    rw [hcur, currency_resolve hc]
    show (if truthyOpt (getFOpt (getFOpt (getFOpt (getF passport (s2l "limits"))
        (s2l "payments.refund")) (s2l "currency_limits")) (jKey (J.str c))) = true
      then _ else _) = _
    rw [show jKey (J.str c) = c from rfl, hlim]
    rw [show truthyOpt (none : Option J) = false from rfl]
    rw [if_neg (by simp)]
    rfl⟩

theorem evalOutcome_refund_of_step {passport context : J} {st : Bool × List J}
    (hstep : refundStep passport context (true, []) = st) :
    evalOutcome (s2l "payments.refund.v1") passport context =
      (if st.1 && st.2.isEmpty then
        (st.1, st.2 ++ [J.obj [
          (s2l "code", J.str (s2l "oap.allowed")),
          (s2l "message", J.str
            (s2l "Transaction within limits and policy requirements"))]])
      else st) := by
  have hps : packStages (s2l "payments.refund.v1") passport context = st := by
    unfold packStages
    rw [if_neg (show ¬(s2l "payments.refund.v1" = s2l "data.export.v1")
      by decide), if_pos rfl, hstep]
  unfold evalOutcome
  rw [hps]

theorem evalOutcome_refund_within {passport context : J} {c : Str} {m a : Int}
    {lim : J} (hc : c ≠ [])
    (hcur : getF context (s2l "currency") = some (J.str c))
    (hamt : getF context (s2l "amount") = some (J.num a))
    (hlim : getFOpt (getFOpt (getFOpt (getF passport (s2l "limits"))
      (s2l "payments.refund")) (s2l "currency_limits")) c = some lim)
    (hlimT : truthy lim = true)
    (hmax : getF lim (s2l "max_per_tx") = some (J.num m))
    (hle : a ≤ m) :
    evalOutcome (s2l "payments.refund.v1") passport context =
      (true, [J.obj [
        (s2l "code", J.str (s2l "oap.allowed")),
        (s2l "message", J.str
          (s2l "Transaction within limits and policy requirements"))]]) := by
  rw [evalOutcome_refund_of_step
    (refundStep_within hc hcur hamt hlim hlimT hmax hle)]
  rfl

theorem evalOutcome_refund_exceeds {passport context : J} {c : Str} {m a : Int}
    {lim : J} (hc : c ≠ [])
    (hcur : getF context (s2l "currency") = some (J.str c))
    (hamt : getF context (s2l "amount") = some (J.num a))
    (hlim : getFOpt (getFOpt (getFOpt (getF passport (s2l "limits"))
      (s2l "payments.refund")) (s2l "currency_limits")) c = some lim)
    (hlimT : truthy lim = true)
    (hmax : getF lim (s2l "max_per_tx") = some (J.num m))
    (hgt : m < a) :
    ∃ msg, evalOutcome (s2l "payments.refund.v1") passport context =
      (false, [J.obj [(s2l "code", J.str (s2l "oap.limit_exceeded")),
        (s2l "message", J.str msg)]]) := by
  rcases refundStep_exceeds hc hcur hamt hlim hlimT hmax hgt with ⟨msg, hstep⟩
  refine ⟨msg, ?_⟩
  rw [evalOutcome_refund_of_step hstep]
  rfl

theorem evalOutcome_refund_nocur {passport context : J} {c : Str}
    (hc : c ≠ [])
    (hcur : getF context (s2l "currency") = some (J.str c))
    (hlim : getFOpt (getFOpt (getFOpt (getF passport (s2l "limits"))
      (s2l "payments.refund")) (s2l "currency_limits")) c = none) :
    ∃ msg, evalOutcome (s2l "payments.refund.v1") passport context =
      (false, [J.obj [(s2l "code", J.str (s2l "oap.currency_unsupported")),
        (s2l "message", J.str msg)]]) := by
  rcases refundStep_no_currency hc hcur hlim with ⟨msg, hstep⟩
  refine ⟨msg, ?_⟩
  rw [evalOutcome_refund_of_step hstep]
  rfl

/-- A refund-pack passport whose `status` is `suspended`, with a USD
limit of 5000 per transaction (the conformance runner's standard refund
fixture shape). -/
def suspendedRefundPassport : J :=
  J.obj [
    (s2l "passport_id", J.str (s2l "550e8400-e29b-41d4-a716-446655440000")),
    (s2l "kind", J.str (s2l "template")),
    (s2l "spec_version", J.str (s2l "oap/1.0")),
    (s2l "owner_id", J.str (s2l "org_12345678")),
    (s2l "owner_type", J.str (s2l "org")),
    (s2l "assurance_level", J.str (s2l "L2")),
    (s2l "status", J.str (s2l "suspended")),
    (s2l "capabilities", J.arr [J.obj [(s2l "id", J.str (s2l "payments.refund"))]]),
    (s2l "limits", J.obj [
      (s2l "payments.refund", J.obj [
        (s2l "currency_limits", J.obj [
          (s2l "USD", J.obj [
            (s2l "max_per_tx", J.num 5000),
            (s2l "daily_cap", J.num 50000)])])])]),
    (s2l "regions", J.arr [J.str (s2l "US")]),
    (s2l "created_at", J.str (s2l "2024-01-01T00:00:00Z")),
    (s2l "updated_at", J.str (s2l "2024-01-15T10:30:00Z")),
    (s2l "version", J.str (s2l "1.0.0"))]

/-- A small in-limit refund context (amount 100 USD). -/
def smallRefundContext : J :=
  J.obj [
    (s2l "amount", J.num 100),
    (s2l "currency", J.str (s2l "USD")),
    (s2l "order_id", J.str (s2l "order_1"))]

/-- C2: the claim states that every evaluation against a passport with
`status = "suspended"` denies with first reason `oap.passport_suspended`.
The conformance runner's `evaluatePolicy` never reads `status`: with the
suspended refund passport above and an in-limit context it returns
`allow = true` with first (and only) reason `oap.allowed`. -/
theorem C2_suspended_passport_still_allows :
    getF suspendedRefundPassport (s2l "status")
      = some (J.str (s2l "suspended")) ∧
    getF (evaluatePolicy (s2l "payments.refund.v1") suspendedRefundPassport
        smallRefundContext 0 (s2l "2024-01-15T10:30:00Z")).2 (s2l "allow")
      = some (J.bool true) ∧
    firstReasonCode (evaluatePolicy (s2l "payments.refund.v1")
        suspendedRefundPassport smallRefundContext 0
        (s2l "2024-01-15T10:30:00Z")).2
      = some (J.str (s2l "oap.allowed")) := by
  refine ⟨by decide, ?_, ?_⟩
  · rw [evaluatePolicy_allow]
    decide
  · unfold firstReasonCode
    rw [evaluatePolicy_reasons]
    decide

/-- C6: refund-pack boundary.  For every active passport whose
`currency_limits` entry for the context currency carries
`max_per_tx = m`, a context with `amount = m` is allowed, and a context
with `amount = m + 1` is denied with first reason code
`oap.limit_exceeded`. -/
theorem C6_refund_boundary (passport ctx1 ctx2 : J) (c : Str) (m : Int)
    (lim : J) (nowMs : Nat) (nowIso : Str)
    (hactive : getF passport (s2l "status") = some (J.str (s2l "active")))
    (hc : c ≠ [])
    (hcur1 : getF ctx1 (s2l "currency") = some (J.str c))
    (hcur2 : getF ctx2 (s2l "currency") = some (J.str c))
    (hamt1 : getF ctx1 (s2l "amount") = some (J.num m))
    (hamt2 : getF ctx2 (s2l "amount") = some (J.num (m + 1)))
    (hlim : getFOpt (getFOpt (getFOpt (getF passport (s2l "limits"))
      (s2l "payments.refund")) (s2l "currency_limits")) c = some lim)
    (hlimT : truthy lim = true)
    (hmax : getF lim (s2l "max_per_tx") = some (J.num m)) :
    getF (evaluatePolicy (s2l "payments.refund.v1") passport ctx1
        nowMs nowIso).2 (s2l "allow") = some (J.bool true) ∧
    getF (evaluatePolicy (s2l "payments.refund.v1") passport ctx2
        nowMs nowIso).2 (s2l "allow") = some (J.bool false) ∧
    firstReasonCode (evaluatePolicy (s2l "payments.refund.v1") passport ctx2
        nowMs nowIso).2 = some (J.str (s2l "oap.limit_exceeded")) := by
  have h1 := evalOutcome_refund_within hc hcur1 hamt1 hlim hlimT hmax
    (Int.le_refl m)
  rcases evalOutcome_refund_exceeds hc hcur2 hamt2 hlim hlimT hmax
    (by omega) with ⟨msg, h2⟩
  refine ⟨?_, ?_, ?_⟩
  · rw [evaluatePolicy_allow, h1]
  · rw [evaluatePolicy_allow, h2]
  · unfold firstReasonCode
    rw [evaluatePolicy_reasons, h2]
    exact getF_obj_cons_eq _ _ _

/-- An active refund passport with a USD `max_per_tx` of 5000 (the
spec's concrete boundary example). -/
def activeRefundPassport : J :=
  J.obj [
    (s2l "passport_id", J.str (s2l "550e8400-e29b-41d4-a716-446655440000")),
    (s2l "kind", J.str (s2l "template")),
    (s2l "spec_version", J.str (s2l "oap/1.0")),
    (s2l "owner_id", J.str (s2l "org_12345678")),
    (s2l "owner_type", J.str (s2l "org")),
    (s2l "assurance_level", J.str (s2l "L2")),
    (s2l "status", J.str (s2l "active")),
    (s2l "capabilities", J.arr [J.obj [(s2l "id", J.str (s2l "payments.refund"))]]),
    (s2l "limits", J.obj [
      (s2l "payments.refund", J.obj [
        (s2l "currency_limits", J.obj [
          (s2l "USD", J.obj [
            (s2l "max_per_tx", J.num 5000),
            (s2l "daily_cap", J.num 50000)])])])]),
    (s2l "regions", J.arr [J.str (s2l "US")]),
    (s2l "created_at", J.str (s2l "2024-01-01T00:00:00Z")),
    (s2l "updated_at", J.str (s2l "2024-01-15T10:30:00Z")),
    (s2l "version", J.str (s2l "1.0.0"))]

/-- A refund context with the given amount in USD. -/
def usdRefundContext (amount : Int) : J :=
  J.obj [
    (s2l "amount", J.num amount),
    (s2l "currency", J.str (s2l "USD")),
    (s2l "order_id", J.str (s2l "order_1"))]

theorem C6_refund_boundary_witness :
    getF (evaluatePolicy (s2l "payments.refund.v1") activeRefundPassport
        (usdRefundContext 5000) 0 (s2l "2024-01-15T10:30:00Z")).2
      (s2l "allow") = some (J.bool true) ∧
    getF (evaluatePolicy (s2l "payments.refund.v1") activeRefundPassport
        (usdRefundContext 5001) 0 (s2l "2024-01-15T10:30:00Z")).2
      (s2l "allow") = some (J.bool false) ∧
    firstReasonCode (evaluatePolicy (s2l "payments.refund.v1")
        activeRefundPassport (usdRefundContext 5001) 0
        (s2l "2024-01-15T10:30:00Z")).2
      = some (J.str (s2l "oap.limit_exceeded")) :=
  C6_refund_boundary activeRefundPassport (usdRefundContext 5000)
    (usdRefundContext 5001) (s2l "USD") 5000
    (J.obj [(s2l "max_per_tx", J.num 5000), (s2l "daily_cap", J.num 50000)])
    0 (s2l "2024-01-15T10:30:00Z")
    (by decide) (by decide) (by decide) (by decide) (by decide) (by decide)
    (by decide) (by decide) (by decide)

/-- C7: a refund context whose currency has no `currency_limits` entry is
denied with first reason code `oap.currency_unsupported`, whatever the
amount. -/
theorem C7_unsupported_currency (passport ctx : J) (c : Str)
    (nowMs : Nat) (nowIso : Str) (hc : c ≠ [])
    (hcur : getF ctx (s2l "currency") = some (J.str c))
    (hlim : getFOpt (getFOpt (getFOpt (getF passport (s2l "limits"))
      (s2l "payments.refund")) (s2l "currency_limits")) c = none) :
    getF (evaluatePolicy (s2l "payments.refund.v1") passport ctx
        nowMs nowIso).2 (s2l "allow") = some (J.bool false) ∧
    firstReasonCode (evaluatePolicy (s2l "payments.refund.v1") passport ctx
        nowMs nowIso).2 = some (J.str (s2l "oap.currency_unsupported")) := by
  rcases evalOutcome_refund_nocur hc hcur hlim with ⟨msg, h⟩
  refine ⟨?_, ?_⟩
  · rw [evaluatePolicy_allow, h]
  · unfold firstReasonCode
    rw [evaluatePolicy_reasons, h]
    exact getF_obj_cons_eq _ _ _

/-- A refund context of 10 JPY (no JPY entry exists in the fixture
passport). -/
def jpyRefundContext : J :=
  J.obj [
    (s2l "amount", J.num 10),
    (s2l "currency", J.str (s2l "JPY")),
    (s2l "order_id", J.str (s2l "order_2"))]

theorem C7_unsupported_currency_witness :
    getF (evaluatePolicy (s2l "payments.refund.v1") activeRefundPassport
        jpyRefundContext 0 (s2l "2024-01-15T10:30:00Z")).2
      (s2l "allow") = some (J.bool false) ∧
    firstReasonCode (evaluatePolicy (s2l "payments.refund.v1")
        activeRefundPassport jpyRefundContext 0
        (s2l "2024-01-15T10:30:00Z")).2
      = some (J.str (s2l "oap.currency_unsupported")) :=
  C7_unsupported_currency activeRefundPassport jpyRefundContext
    (s2l "JPY") 0 (s2l "2024-01-15T10:30:00Z")
    (by decide) (by decide) (by decide)

theorem validateDecision_false_of_bad_signature (d : J)
    (hobj : ∃ pairs, d = J.obj pairs) (s : Str)
    (hsig : getF d (s2l "signature") = some (J.str s))
    (hbad : ed25519Pattern s = false) :
    (validateDecision d).1 = false := by
  rcases hobj with ⟨pairs, rfl⟩
  have hmem : (s2l "/signature: must match format pattern")
      ∈ checkDecision (J.obj pairs) := by
    simp only [checkDecision]
    refine List.mem_append_left _ ?_
    refine List.mem_append_right _ ?_
    simp only [propCheck, hsig, strCheck, hbad]
    simp only [if_neg, if_false, Bool.false_eq_true, List.mem_singleton]
    decide
  cases hck : checkDecision (J.obj pairs) with
  | nil => rw [hck] at hmem; exact absurd hmem (List.not_mem_nil _)
  | cons a l =>
    unfold validateDecision
    rw [hck]
    rfl

/-- C9 (amended): the claim states that every decision produced by the
policy evaluator validates with zero violations.  In fact every produced
decision fails validation: its `signature` is the fixed placeholder
`ed25519:test_signature_placeholder_...`, whose underscores violate the
schema pattern `^ed25519:[A-Za-z0-9+/=]+$` (and its `decision_id`
`test_<timestamp>` is not a UUID), so `validateDecision` returns
`valid = false` for every pack, passport, context and clock reading. -/
theorem C9_produced_decision_never_validates (packId : Str)
    (passport context : J) (nowMs : Nat) (nowIso : Str) :
    (validateDecision
      (evaluatePolicy packId passport context nowMs nowIso).2).1 = false :=
  validateDecision_false_of_bad_signature _ ⟨_, rfl⟩ placeholderSignature
    (evaluatePolicy_signature packId passport context nowMs nowIso)
    (by decide)

theorem C9_witness :
    (validateDecision
      (evaluatePolicy (s2l "payments.refund.v1") activeRefundPassport
        (usdRefundContext 100) 0 (s2l "2024-01-15T10:30:00Z")).2).1
      = false :=
  C9_produced_decision_never_validates (s2l "payments.refund.v1")
    activeRefundPassport (usdRefundContext 100) 0
    (s2l "2024-01-15T10:30:00Z")

/-- C9 (counterexample to the claim as stated): the concrete decision
produced for the standard refund fixture does not validate cleanly. -/
theorem C9_counterexample :
    (validateDecision
      (evaluatePolicy (s2l "payments.refund.v1") suspendedRefundPassport
        smallRefundContext 0 (s2l "2024-01-15T10:30:00Z")).2).1
      = false :=
  validateDecision_false_of_bad_signature _ ⟨_, rfl⟩ placeholderSignature
    (evaluatePolicy_signature (s2l "payments.refund.v1")
      suspendedRefundPassport smallRefundContext 0
      (s2l "2024-01-15T10:30:00Z"))
    (by decide)

/-- A decision that is schema-valid in every member except possibly
`expires_in` and `reasons`, which are the parameters. -/
def c8Decision (n : Int) (rs : List J) : J :=
  J.obj [
    (s2l "decision_id", J.str (s2l "550e8400-e29b-41d4-a716-446655440002")),
    (s2l "policy_id", J.str (s2l "payments.refund.v1")),
    (s2l "agent_id", J.str (s2l "550e8400-e29b-41d4-a716-446655440000")),
    (s2l "owner_id", J.str (s2l "org_12345678")),
    (s2l "assurance_level", J.str (s2l "L2")),
    (s2l "allow", J.bool true),
    (s2l "reasons", J.arr rs),
    (s2l "created_at", J.str (s2l "2024-01-15T10:30:00Z")),
    (s2l "expires_in", J.num n),
    (s2l "passport_digest", J.str (s2l "sha256:0123456789abcdef0123456789abcdef0123456789abcdef0123456789abcdef")),
    (s2l "signature", J.str (s2l "ed25519:dGVzdHNpZ25hdHVyZQ==")),
    (s2l "kid", J.str (s2l "oap:registry:key-2025-01"))]

/-- C8 (counterexample to the claim as stated): a decision with
`expires_in = 0` and an empty `reasons` array validates cleanly — the
fallback schema sets `minimum: 0` and no `minItems`. -/
theorem C8_counterexample :
    validateDecision (c8Decision 0 []) = (true, []) := by decide

set_option maxHeartbeats 2000000 in
/-- C8 (amended): the Validator flags `expires_in` only when it is
negative (or not an integer); `expires_in = 0` and an empty `reasons`
array produce zero violations.  For the otherwise-valid decision above,
validation succeeds exactly when `0 ≤ expires_in`, for every `reasons`
array. -/
theorem C8_validator_accepts_zero_expiry (n : Int) (rs : List J) :
    (validateDecision (c8Decision n rs)).1 = decide (0 ≤ n) := by
  have hck : checkDecision (c8Decision n rs) =
      (if 0 ≤ n then [] else [s2l "/expires_in: must be >= 0"]) := by
    show (((if (0:Int) ≤ n then ([] : List Str)
        else [s2l "/expires_in: must be >= 0"]) ++ ([] : List Str)) ++
          ([] : List Str)) ++ ([] : List Str) = _
    simp
  unfold validateDecision
  rw [hck]
  rcases Int.le_or_lt 0 n with hn | hn
  · rw [if_pos hn]
    simp [hn]
  · rw [if_neg (by omega)]
    simp [show ¬(0 ≤ n) from by omega]

/-- C3: two semantically equal JSON values — same objects up to key
order at any nesting depth, arrays in the same order — canonicalize to
byte-identical output, both under the JCS canonicalizer and under the
deterministic-JSON serializer used for VC signing. -/
theorem C3_canonicalization_deterministic (a b : J) (h : SemEq a b) :
    canon a = canon b ∧ detJson a = detJson b :=
  ⟨canon_respects_semEq a b h, by
    rw [detJson_eq_canon, detJson_eq_canon]
    exact canon_respects_semEq a b h⟩

/-- A two-level object (keys in one order). -/
def c3Left : J :=
  J.obj [(s2l "b", J.num 1),
    (s2l "a", J.obj [(s2l "y", J.num 2), (s2l "x", J.null)])]

/-- The same object with both key levels permuted. -/
def c3Right : J :=
  J.obj [(s2l "a", J.obj [(s2l "x", J.null), (s2l "y", J.num 2)]),
    (s2l "b", J.num 1)]

theorem C3_canonicalization_deterministic_witness :
    canon c3Left = canon c3Right ∧ detJson c3Left = detJson c3Right := by
  have hinner : SemEq (J.obj [(s2l "y", J.num 2), (s2l "x", J.null)])
      (J.obj [(s2l "x", J.null), (s2l "y", J.num 2)]) :=
    @SemEq.obj [(s2l "y", J.num 2), (s2l "x", J.null)]
      [(s2l "y", J.num 2), (s2l "x", J.null)]
      [(s2l "x", J.null), (s2l "y", J.num 2)]
      (by decide)
      (SemEqP.cons rfl (SemEq.num 2)
        (SemEqP.cons rfl SemEq.null SemEqP.nil))
      (by decide)
  exact C3_canonicalization_deterministic c3Left c3Right
    (@SemEq.obj
      [(s2l "b", J.num 1),
        (s2l "a", J.obj [(s2l "y", J.num 2), (s2l "x", J.null)])]
      [(s2l "b", J.num 1),
        (s2l "a", J.obj [(s2l "x", J.null), (s2l "y", J.num 2)])]
      [(s2l "a", J.obj [(s2l "x", J.null), (s2l "y", J.num 2)]),
        (s2l "b", J.num 1)]
      (by decide)
      (SemEqP.cons rfl (SemEq.num 1)
        (SemEqP.cons rfl hinner SemEqP.nil))
      (by decide))

/-- C5: `verifyEd25519` never raises: its whole body sits inside a
catch, so for every message, signature and key — including undecodable
keys — it returns an ordinary Boolean, and every decoding failure
verifies as `false`. -/
theorem C5_verify_never_raises (m s : Bytes) (k : Sum Str Bytes) :
    (∃ b, verifyEd25519 m s k = Except.ok b) ∧
    (∀ e, publicKeyToBytesE k = Except.error e →
      verifyEd25519 m s k = Except.ok false) := by
  constructor
  · unfold verifyEd25519
    cases verifyEd25519Body m s k with
    | ok b => exact ⟨b, rfl⟩
    | error e => exact ⟨false, rfl⟩
  · intro e he
    unfold verifyEd25519 verifyEd25519Body
    rw [he]
    rfl

theorem C5_verify_never_raises_witness :
    verifyEd25519 [1, 2] [3] (Sum.inl (s2l "!!!")) = Except.ok false :=
  (C5_verify_never_raises [1, 2] [3] (Sum.inl (s2l "!!!"))).2 ()
    (by rfl)

/-- C10: the test-harness `Ed25519.verify` ignores its message entirely:
any two messages verify identically, and the result is `true` exactly
when the prefix-stripped signature is canonical base64 of length 88 and
the prefix-stripped key is canonical base64 of length 44 — no
cryptographic verification takes place. -/
theorem C10_harness_verify_ignores_message (m1 m2 : Bytes)
    (sig pk : Str) :
    edVerifyHarness m1 sig pk = edVerifyHarness m2 sig pk ∧
    (edVerifyHarness m1 sig pk = true ↔
      (isValidBase64 (dropLead (s2l "ed25519:") sig) = true ∧
       (dropLead (s2l "ed25519:") sig).length = 88 ∧
       isValidBase64 (dropLead (s2l "ed25519:") pk) = true ∧
       (dropLead (s2l "ed25519:") pk).length = 44)) := by
  refine ⟨rfl, ?_⟩
  by_cases h1 : isValidBase64 (dropLead (s2l "ed25519:") sig) = true <;>
    by_cases h2 : isValidBase64 (dropLead (s2l "ed25519:") pk) = true <;>
    simp [edVerifyHarness, h1, h2, and_assoc]

set_option maxRecDepth 20000 in
theorem C10_harness_verify_ignores_message_witness :
    edVerifyHarness [] (s2l ("ed25519:" ++
      "AAAAAAAAAAAAAAAAAAAAAAAAAAAAAAAAAAAAAAAAAAAAAAAAAAAAAAAAAAAAAAAAAAAAAAAAAAAAAAAAAAAAAAAA"))
      (s2l "AAAAAAAAAAAAAAAAAAAAAAAAAAAAAAAAAAAAAAAAAAAA") = true :=
  (C10_harness_verify_ignores_message [] [7] _ _).2.mpr
    ⟨by decide, by decide, by decide, by decide⟩

theorem splitOnChar_cons (sep c : Char) (cs : Str) :
    splitOnChar sep (c :: cs) =
      match splitOnChar sep cs with
      | [] => [[c]]
      | r :: rs => if c = sep then [] :: r :: rs else (c :: r) :: rs := rfl

theorem splitOnChar_ne_nil (sep : Char) : ∀ (s : Str), splitOnChar sep s ≠ []
  | [] => by simp [splitOnChar]
  | c :: cs => by
    rw [splitOnChar_cons]
    cases h : splitOnChar sep cs with
    | nil => exact absurd h (splitOnChar_ne_nil sep cs)
    | cons r rs => by_cases hc : c = sep <;> simp [hc]

theorem splitOnChar_no_sep (sep : Char) : ∀ (xs : Str),
    (∀ c ∈ xs, ¬(c = sep)) → splitOnChar sep xs = [xs]
  | [], _ => rfl
  | c :: cs, h => by
    have hcs : splitOnChar sep cs = [cs] :=
      splitOnChar_no_sep sep cs (fun a ha => h a (List.mem_cons_of_mem c ha))
    rw [splitOnChar_cons, hcs]
    simp [h c (List.mem_cons_self c cs)]

theorem splitOnChar_sep_cons (sep : Char) (cs : Str) :
    splitOnChar sep (sep :: cs) = [] :: splitOnChar sep cs := by
  rw [splitOnChar_cons]
  cases h : splitOnChar sep cs with
  | nil => exact absurd h (splitOnChar_ne_nil sep cs)
  | cons r rs => simp

theorem splitOnChar_append_no_sep (sep : Char) : ∀ (xs ys : Str),
    (∀ c ∈ xs, ¬(c = sep)) →
    splitOnChar sep (xs ++ ys) =
      (xs ++ (splitOnChar sep ys).headD []) :: (splitOnChar sep ys).tail
  | [], ys, _ => by
    cases h : splitOnChar sep ys with
    | nil => exact absurd h (splitOnChar_ne_nil sep ys)
    | cons r rs => simp [h]
  | c :: cs, ys, h => by
    have hrec := splitOnChar_append_no_sep sep cs ys
      (fun a ha => h a (List.mem_cons_of_mem c ha))
    show splitOnChar sep (c :: (cs ++ ys)) = _
    rw [splitOnChar_cons, hrec]
    simp [h c (List.mem_cons_self c cs)]

theorem stdToUrl_b64Char_ne_dot : ∀ n, n < 64 →
    ¬(stdToUrl (b64Char n) = '.') := by decide

theorem jwsHeaderB64_ne_nil : jwsHeaderB64 ≠ [] := by decide

theorem jwsHeaderB64_no_dot : ∀ c ∈ jwsHeaderB64, ¬(c = '.') := by decide

theorem signCredentialE_eq (vc : VC) (rk : RegistryKey) (k : Bytes)
    (hpk : rk.privateKey = some (Sum.inr k)) (hk : k.length = 32) :
    signCredentialE vc rk = Except.ok (jwsHeaderB64 ++ s2l ".." ++
      bytesToBase64url (edSignRaw
        (canonicalizeJsonLd (credentialWithoutProofJ vc)) k)) := by
  unfold signCredentialE
  rw [hpk]
  show (do
    let signatureBytes ← signEd25519E
      (canonicalizeJsonLd (credentialWithoutProofJ vc)) (Sum.inr k)
    pure (jwsHeaderB64 ++ s2l ".." ++ bytesToBase64url signatureBytes) :
      Except Unit Str) = _
  have hsign : signEd25519E
      (canonicalizeJsonLd (credentialWithoutProofJ vc)) (Sum.inr k)
      = Except.ok (edSignRaw
        (canonicalizeJsonLd (credentialWithoutProofJ vc)) k) := by
    unfold signEd25519E
    show (do
      let privateKeyBytes ← (Except.ok k : Except Unit Bytes)
      pure (edSignRaw (canonicalizeJsonLd (credentialWithoutProofJ vc))
        (if privateKeyBytes.length ≥ 32 then privateKeyBytes.take 32
         else privateKeyBytes)) : Except Unit Bytes) = _
    have htake : (if k.length ≥ 32 then k.take 32 else k) = k := by
      rw [if_pos (by omega)]
      rw [← hk, List.take_length]
    show Except.ok (edSignRaw _ (if k.length ≥ 32 then k.take 32 else k)) = _
    rw [htake]
  rw [hsign]
  rfl

theorem foldrEsc_len_ge : ∀ (t : Str),
    1 ≤ (List.foldr (fun c acc => escChar c ++ acc) ['"'] t).length
  | [] => by simp
  | c :: cs => by
    have ih := foldrEsc_len_ge cs
    simp only [List.foldr_cons, List.length_append]
    omega

theorem strRender_len_ge (s : Str) : 2 ≤ (strRender s).length :=
  Nat.succ_le_succ (foldrEsc_len_ge s)

theorem renderPair_len_ge (p : Str × Str) : 3 ≤ (renderPair p).length := by
  unfold renderPair
  have := strRender_len_ge p.1
  simp only [List.length_append, List.length_cons]
  omega

theorem renderPairs_len : ∀ (l : List (Str × Str)), l ≠ [] →
    (renderPairs l).length + 1 =
      (l.map (fun p => (renderPair p).length)).sum + l.length
  | [], h => absurd rfl h
  | [p], _ => by simp [renderPairs]
  | p :: q :: ps, _ => by
    have ih := renderPairs_len (q :: ps) (by simp)
    show (renderPair p ++ ',' :: renderPairs (q :: ps)).length + 1 = _
    simp only [List.length_append, List.length_cons, List.map_cons,
      List.sum_cons] at ih ⊢
    omega

theorem renderPairs_sortPairs_len (l : List (Str × Str)) (h : l ≠ []) :
    (renderPairs (sortPairs l)).length + 1 =
      (l.map (fun p => (renderPair p).length)).sum + l.length := by
  have hp := sortPairs_perm l
  have hne : sortPairs l ≠ [] := by
    intro hnil
    rw [hnil] at hp
    exact h hp.nil_eq.symm
  rw [renderPairs_len (sortPairs l) hne, (hp.map _).sum_eq, hp.length_eq]

theorem detPairs_append : ∀ (l m : List (Str × J)),
    detPairs (l ++ m) = detPairs l ++ detPairs m
  | [], _ => rfl
  | p :: ps, m => by
    show (p.1, detJson p.2) :: detPairs (ps ++ m) = _
    rw [detPairs_append ps m]
    rfl

theorem canonLd_withProof_ne (vc : VC) (pf : VCProof) :
    ¬(canonicalizeJsonLd (credentialWithProofJ vc pf) =
      canonicalizeJsonLd (credentialWithoutProofJ vc)) := by
  intro h
  have hlen := congrArg List.length h
  have h6 : credentialWithoutProofJ vc = J.obj [
      (s2l "@context", J.arr (vc.context.map J.str)),
      (s2l "type", J.arr (vc.type.map J.str)),
      (s2l "credentialSubject", vc.credentialSubject),
      (s2l "issuer", J.str vc.issuer),
      (s2l "issuanceDate", J.str vc.issuanceDate),
      (s2l "expirationDate", J.str vc.expirationDate)] := rfl
  have h7 : credentialWithProofJ vc pf = J.obj ([
      (s2l "@context", J.arr (vc.context.map J.str)),
      (s2l "type", J.arr (vc.type.map J.str)),
      (s2l "credentialSubject", vc.credentialSubject),
      (s2l "issuer", J.str vc.issuer),
      (s2l "issuanceDate", J.str vc.issuanceDate),
      (s2l "expirationDate", J.str vc.expirationDate)] ++ [
      (s2l "proof", J.obj [
        (s2l "type", J.str pf.type),
        (s2l "created", J.str pf.created),
        (s2l "verificationMethod", J.str pf.verificationMethod),
        (s2l "proofPurpose", J.str pf.proofPurpose),
        (s2l "jws", J.str pf.jws)])]) := rfl
  rw [h6, h7] at hlen
  unfold canonicalizeJsonLd utf8 at hlen
  rw [List.length_map, List.length_map] at hlen
  rw [show ∀ kvs, detJson (J.obj kvs) =
      '{' :: (renderPairs (sortPairs (detPairs kvs)) ++ ['}'])
    from fun kvs => rfl] at hlen
  rw [show ∀ kvs, detJson (J.obj kvs) =
      '{' :: (renderPairs (sortPairs (detPairs kvs)) ++ ['}'])
    from fun kvs => rfl] at hlen
  rw [detPairs_append] at hlen
  have hr7 := renderPairs_sortPairs_len (detPairs [
      (s2l "@context", J.arr (vc.context.map J.str)),
      (s2l "type", J.arr (vc.type.map J.str)),
      (s2l "credentialSubject", vc.credentialSubject),
      (s2l "issuer", J.str vc.issuer),
      (s2l "issuanceDate", J.str vc.issuanceDate),
      (s2l "expirationDate", J.str vc.expirationDate)] ++
      detPairs [(s2l "proof", J.obj [
        (s2l "type", J.str pf.type),
        (s2l "created", J.str pf.created),
        (s2l "verificationMethod", J.str pf.verificationMethod),
        (s2l "proofPurpose", J.str pf.proofPurpose),
        (s2l "jws", J.str pf.jws)])]) (by simp [detPairs])
  have hr6 := renderPairs_sortPairs_len (detPairs [
      (s2l "@context", J.arr (vc.context.map J.str)),
      (s2l "type", J.arr (vc.type.map J.str)),
      (s2l "credentialSubject", vc.credentialSubject),
      (s2l "issuer", J.str vc.issuer),
      (s2l "issuanceDate", J.str vc.issuanceDate),
      (s2l "expirationDate", J.str vc.expirationDate)]) (by simp [detPairs])
  rw [List.map_append, List.sum_append, List.length_append] at hr7
  have hpp := renderPair_len_ge (s2l "proof",
    detJson (J.obj [
      (s2l "type", J.str pf.type),
      (s2l "created", J.str pf.created),
      (s2l "verificationMethod", J.str pf.verificationMethod),
      (s2l "proofPurpose", J.str pf.proofPurpose),
      (s2l "jws", J.str pf.jws)]))
  have ha : (detPairs [
      (s2l "@context", J.arr (vc.context.map J.str)),
      (s2l "type", J.arr (vc.type.map J.str)),
      (s2l "credentialSubject", vc.credentialSubject),
      (s2l "issuer", J.str vc.issuer),
      (s2l "issuanceDate", J.str vc.issuanceDate),
      (s2l "expirationDate", J.str vc.expirationDate)]).length = 6 := rfl
  have hb : (detPairs [(s2l "proof", J.obj [
      (s2l "type", J.str pf.type),
      (s2l "created", J.str pf.created),
      (s2l "verificationMethod", J.str pf.verificationMethod),
      (s2l "proofPurpose", J.str pf.proofPurpose),
      (s2l "jws", J.str pf.jws)])]).length = 1 := rfl
  have hsum : ((detPairs [(s2l "proof", J.obj [
      (s2l "type", J.str pf.type),
      (s2l "created", J.str pf.created),
      (s2l "verificationMethod", J.str pf.verificationMethod),
      (s2l "proofPurpose", J.str pf.proofPurpose),
      (s2l "jws", J.str pf.jws)])]).map
        (fun p => (renderPair p).length)).sum
      = (renderPair (s2l "proof", detJson (J.obj [
        (s2l "type", J.str pf.type),
        (s2l "created", J.str pf.created),
        (s2l "verificationMethod", J.str pf.verificationMethod),
        (s2l "proofPurpose", J.str pf.proofPurpose),
        (s2l "jws", J.str pf.jws)]))).length := by
    simp [detPairs]
  rw [ha, hb, hsum] at hr7
  rw [ha] at hr6
  simp only [List.length_cons, List.length_append, List.length_nil] at hlen
  omega

theorem bytesToBase64url_no_dot (bs : Bytes) (hb : ∀ b ∈ bs, b < 256) :
    ∀ c ∈ bytesToBase64url bs, ¬(c = '.') := by
  rw [bytesToBase64url_eq bs hb]
  intro c hc
  rcases List.mem_map.mp hc with ⟨d, hd, rfl⟩
  rcases List.mem_map.mp hd with ⟨n, hn, rfl⟩
  exact stdToUrl_b64Char_ne_dot n (encode3_lt64 bs hb n hn)

theorem detachedJws_split (sigB64 : Str) (hnodot : ∀ c ∈ sigB64, ¬(c = '.')) :
    splitOnChar '.' (jwsHeaderB64 ++ s2l ".." ++ sigB64) =
      [jwsHeaderB64, [], sigB64] := by
  rw [List.append_assoc]
  rw [show s2l ".." ++ sigB64 = '.' :: '.' :: sigB64 from rfl]
  rw [splitOnChar_append_no_sep '.' jwsHeaderB64 _ jwsHeaderB64_no_dot]
  rw [splitOnChar_sep_cons, splitOnChar_sep_cons,
    splitOnChar_no_sep '.' sigB64 hnodot]
  simp

theorem detachedJws_ne_nil (sigB64 : Str) :
    ¬(jwsHeaderB64 ++ s2l ".." ++ sigB64 = []) := by
  intro h
  rcases List.append_eq_nil.mp h with ⟨h1, _⟩
  rcases List.append_eq_nil.mp h1 with ⟨h2, _⟩
  exact jwsHeaderB64_ne_nil h2

theorem verifyCredentialSignature_some (vc : VC) (pf : VCProof)
    (pk : Option (Sum Str Bytes)) :
    verifyCredentialSignature {vc with proof := some pf} pk =
    (if pf.jws = [] then Except.ok false
     else match (do
       if (splitOnChar '.' pf.jws).length ≠ 3 then pure false
       else do
         let signatureBytes ←
           base64urlToBytesE ((splitOnChar '.' pf.jws).getD 2 [])
         let publicKeyBytes ← (match pk with
           | some p => publicKeyToBytesE p
           | none => Except.error ())
         verifyEd25519 (canonicalizeJsonLd (credentialWithoutProofJ vc))
           signatureBytes (Sum.inr publicKeyBytes) : Except Unit Bool) with
     | Except.ok b => Except.ok b
     | Except.error _ => Except.ok false) := rfl

theorem verify_of_signed (vc : VC) (pf : VCProof) (k : Bytes)
    (hk256 : ∀ b ∈ k, b < 256)
    (hascii : ∀ c ∈ detJson (credentialWithoutProofJ vc), c.toNat < 256) :
    verifyCredentialSignature
      {vc with proof := some {pf with jws := (jwsHeaderB64 ++ s2l ".." ++
        bytesToBase64url (edSignRaw
          (canonicalizeJsonLd (credentialWithoutProofJ vc)) k))}}
      (some (Sum.inr k)) = Except.ok true := by
  have hsig256 : ∀ b ∈ edSignRaw
      (canonicalizeJsonLd (credentialWithoutProofJ vc)) k, b < 256 := by
    intro b hb
    rcases List.mem_append.mp hb with h | h
    · exact hk256 b h
    · rcases List.mem_map.mp h with ⟨c, hc, rfl⟩
      exact hascii c hc
  have hnodot := bytesToBase64url_no_dot _ hsig256
  have hsplit := detachedJws_split _ hnodot
  have hne := detachedJws_ne_nil (bytesToBase64url (edSignRaw
    (canonicalizeJsonLd (credentialWithoutProofJ vc)) k))
  have hrt := base64url_roundtrip _ hsig256
  rw [verifyCredentialSignature_some]
  rw [show ({pf with jws := jwsHeaderB64 ++ s2l ".." ++
      bytesToBase64url (edSignRaw
        (canonicalizeJsonLd (credentialWithoutProofJ vc)) k)} :
        VCProof).jws
      = jwsHeaderB64 ++ s2l ".." ++ bytesToBase64url (edSignRaw
        (canonicalizeJsonLd (credentialWithoutProofJ vc)) k) from rfl]
  rw [if_neg hne, hsplit]
  rw [show ([jwsHeaderB64, [], bytesToBase64url (edSignRaw
      (canonicalizeJsonLd (credentialWithoutProofJ vc)) k)] :
      List Str).getD 2 []
    = bytesToBase64url (edSignRaw
      (canonicalizeJsonLd (credentialWithoutProofJ vc)) k) from rfl]
  rw [hrt]
  show Except.ok
      (edSignRaw (canonicalizeJsonLd (credentialWithoutProofJ vc)) k ==
       edSignRaw (canonicalizeJsonLd (credentialWithoutProofJ vc)) k)
    = Except.ok true
  rw [beq_self_eq_true]

/-- C4: for every credential, the byte payload covered by the Ed25519
signature is the canonicalization of the credential with the proof field
removed: `signCredential` produces the detached JWS `header..sig` whose
signature part signs exactly
`canonicalizeJsonLd (credentialWithoutProof vc)`,
`verifyCredentialSignature` rebuilds the same reduced object and accepts
that signature, and canonicalizing the credential with the proof field
still present yields a different payload. -/
theorem C4_signed_payload_excludes_proof (vc : VC) (rk : RegistryKey)
    (pf : VCProof) (k : Bytes)
    (hpk : rk.privateKey = some (Sum.inr k)) (hk : k.length = 32)
    (hk256 : ∀ b ∈ k, b < 256)
    (hascii : ∀ c ∈ detJson (credentialWithoutProofJ vc), c.toNat < 256) :
    (∃ jws, signCredentialE vc rk = Except.ok jws ∧
      jws = jwsHeaderB64 ++ s2l ".." ++ bytesToBase64url (edSignRaw
        (canonicalizeJsonLd (credentialWithoutProofJ vc)) k) ∧
      verifyCredentialSignature
        {vc with proof := some {pf with jws := jws}}
        (some (Sum.inr k)) = Except.ok true) ∧
    ¬(canonicalizeJsonLd (credentialWithProofJ vc pf) =
      canonicalizeJsonLd (credentialWithoutProofJ vc)) :=
  ⟨⟨jwsHeaderB64 ++ s2l ".." ++ bytesToBase64url (edSignRaw
      (canonicalizeJsonLd (credentialWithoutProofJ vc)) k),
    signCredentialE_eq vc rk k hpk hk, rfl,
    verify_of_signed vc pf k hk256 hascii⟩,
   canonLd_withProof_ne vc pf⟩

set_option maxRecDepth 20000 in
set_option maxHeartbeats 1000000 in
/-- Witness for C4 on a concrete credential and a concrete 32-byte
key. -/
theorem C4_signed_payload_excludes_proof_witness :
    (∃ jws, signCredentialE
        ⟨[s2l "https://www.w3.org/2018/credentials/v1"],
         [s2l "VerifiableCredential"],
         J.obj [(s2l "agent_id", J.str (s2l "a1"))],
         s2l "https://example.com",
         s2l "2026-01-01T00:00:00Z",
         s2l "2027-01-01T00:00:00Z",
         none⟩
        ⟨s2l "https://example.com", s2l "key-1",
         some (Sum.inr (List.replicate 32 1)), none⟩ = Except.ok jws ∧
      jws = jwsHeaderB64 ++ s2l ".." ++ bytesToBase64url (edSignRaw
        (canonicalizeJsonLd (credentialWithoutProofJ
          ⟨[s2l "https://www.w3.org/2018/credentials/v1"],
           [s2l "VerifiableCredential"],
           J.obj [(s2l "agent_id", J.str (s2l "a1"))],
           s2l "https://example.com",
           s2l "2026-01-01T00:00:00Z",
           s2l "2027-01-01T00:00:00Z",
           none⟩)) (List.replicate 32 1)) ∧
      verifyCredentialSignature
        {(⟨[s2l "https://www.w3.org/2018/credentials/v1"],
           [s2l "VerifiableCredential"],
           J.obj [(s2l "agent_id", J.str (s2l "a1"))],
           s2l "https://example.com",
           s2l "2026-01-01T00:00:00Z",
           s2l "2027-01-01T00:00:00Z",
           none⟩ : VC) with proof := (some
          {(⟨s2l "Ed25519Signature2020", s2l "2026-01-01T00:00:00Z",
             s2l "vm", s2l "assertionMethod", []⟩ : VCProof) with
            jws := jws})}
        (some (Sum.inr (List.replicate 32 1))) = Except.ok true) ∧
    ¬(canonicalizeJsonLd (credentialWithProofJ
        ⟨[s2l "https://www.w3.org/2018/credentials/v1"],
         [s2l "VerifiableCredential"],
         J.obj [(s2l "agent_id", J.str (s2l "a1"))],
         s2l "https://example.com",
         s2l "2026-01-01T00:00:00Z",
         s2l "2027-01-01T00:00:00Z",
         none⟩
        ⟨s2l "Ed25519Signature2020", s2l "2026-01-01T00:00:00Z",
         s2l "vm", s2l "assertionMethod", []⟩) =
      canonicalizeJsonLd (credentialWithoutProofJ
        ⟨[s2l "https://www.w3.org/2018/credentials/v1"],
         [s2l "VerifiableCredential"],
         J.obj [(s2l "agent_id", J.str (s2l "a1"))],
         s2l "https://example.com",
         s2l "2026-01-01T00:00:00Z",
         s2l "2027-01-01T00:00:00Z",
         none⟩)) :=
  C4_signed_payload_excludes_proof _ _
    ⟨s2l "Ed25519Signature2020", s2l "2026-01-01T00:00:00Z",
     s2l "vm", s2l "assertionMethod", []⟩
    (List.replicate 32 1) rfl (by decide) (by decide) (by decide)

/-- Round-trip fixture: a valid OAP passport (every field checked by
`isValidOAPPassport` present and truthy) without a `did` field. -/
def c1Passport : J := J.obj [
  (s2l "agent_id", J.str (s2l "a1")),
  (s2l "kind", J.str (s2l "template")),
  (s2l "spec_version", J.str (s2l "oap/1.0")),
  (s2l "owner_id", J.str (s2l "o1")),
  (s2l "owner_type", J.str (s2l "org")),
  (s2l "assurance_level", J.str (s2l "L0")),
  (s2l "status", J.str (s2l "active")),
  (s2l "capabilities", J.arr []),
  (s2l "limits", J.obj []),
  (s2l "regions", J.arr []),
  (s2l "created_at", J.str (s2l "2026-01-01T00:00:00Z")),
  (s2l "updated_at", J.str (s2l "2026-01-01T00:00:00Z")),
  (s2l "version", J.str (s2l "1.0.0")),
  (s2l "expires_at", J.str (s2l "2030-01-01T00:00:00Z"))]

/-- Round-trip fixture: a registry key holding an in-memory 32-byte
Ed25519 private key. -/
def c1Key : RegistryKey :=
  ⟨s2l "https://aport.io", s2l "key-1",
   some (Sum.inr (List.replicate 32 1)),
   some (Sum.inr (List.replicate 32 1))⟩

/-- The DID `exportPassportToVC` generates for `c1Passport` under
`c1Key` (the passport itself has no `did`). -/
def c1Did : Str := s2l "did:web:aport.io:api:agents:a1"

/-- The unsigned credential `exportPassportToVC` builds for
`c1Passport`. -/
def c1NoProofVC : VC := {
  context := [s2l "https://www.w3.org/2018/credentials/v1",
    s2l "https://raw.githubusercontent.com/aporthq/aport-spec/refs/heads/main/oap/vc/context-oap-v1.jsonld"],
  type := [s2l "VerifiableCredential", s2l "OAPPassportCredential"],
  credentialSubject := passportSubject c1Passport c1Did,
  issuer := c1Did,
  issuanceDate := s2l "2026-01-01T00:00:00Z",
  expirationDate := s2l "2030-01-01T00:00:00Z",
  proof := none }

/-- The signed credential `exportPassportToVC` returns for
`c1Passport`. -/
def c1SignedVC : VC := { c1NoProofVC with proof := (some
  ⟨s2l "Ed25519Signature2020", s2l "2026-01-01T00:00:00Z",
   c1Did ++ s2l "#key-1", s2l "assertionMethod",
   (jwsHeaderB64 ++ s2l ".." ++ bytesToBase64url (edSignRaw
     (canonicalizeJsonLd (credentialWithoutProofJ c1NoProofVC))
     (List.replicate 32 1)))⟩) }

set_option maxRecDepth 20000 in
theorem c1_export :
    exportPassportToVCE c1Passport c1Key = Except.ok c1SignedVC := by
  have h0 : exportPassportToVCE c1Passport c1Key
      = Except.bind (signCredentialE c1NoProofVC c1Key)
          (fun jws => Except.ok { c1NoProofVC with proof := (some
            ⟨s2l "Ed25519Signature2020", s2l "2026-01-01T00:00:00Z",
             c1Did ++ s2l "#key-1", s2l "assertionMethod", jws⟩) }) := rfl
  rw [h0, signCredentialE_eq c1NoProofVC c1Key (List.replicate 32 1)
    rfl (by decide)]
  rfl

set_option maxRecDepth 20000 in
set_option maxHeartbeats 1000000 in
theorem c1_import :
    importVCToPassportE c1SignedVC (some (Sum.inr (List.replicate 32 1)))
      = Except.ok (passportSubject c1Passport c1Did) := by
  have hver : verifyCredentialSignature c1SignedVC
      (some (Sum.inr (List.replicate 32 1))) = Except.ok true :=
    verify_of_signed c1NoProofVC
      ⟨s2l "Ed25519Signature2020", s2l "2026-01-01T00:00:00Z",
       c1Did ++ s2l "#key-1", s2l "assertionMethod", []⟩
      (List.replicate 32 1) (by decide) (by decide)
  have h0 : importVCToPassportE c1SignedVC
      (some (Sum.inr (List.replicate 32 1)))
      = Except.bind (verifyCredentialSignature c1SignedVC
          (some (Sum.inr (List.replicate 32 1))))
          (fun isValid => if !isValid then Except.error () else
            if !(isValidOAPPassport (passportSubject c1Passport c1Did))
            then Except.error ()
            else Except.ok (passportSubject c1Passport c1Did)) := rfl
  rw [h0, hver]
  rfl

set_option maxRecDepth 20000 in
/-- C1: the export/import round trip is NOT the identity on valid
passports.  For the valid passport `c1Passport` (no `did` field) and
registry key `c1Key`, `exportPassportToVC` succeeds and
`importVCToPassport` of the result under the matching public key
succeeds, but returns `passportSubject c1Passport c1Did` — the passport
with a generated `did` field appended to the `credentialSubject` — which
differs from the original passport, refuting
`fromVC(toVC(x, k), pub(k)) == x`. -/
theorem C1_round_trip_not_identity :
    ∃ vc : VC,
      exportPassportToVCE c1Passport c1Key = Except.ok vc ∧
      importVCToPassportE vc (some (Sum.inr (List.replicate 32 1)))
        = Except.ok (passportSubject c1Passport c1Did) ∧
      isValidOAPPassport c1Passport = true ∧
      ¬(passportSubject c1Passport c1Did = c1Passport) ∧
      getF c1Passport (s2l "did") = none ∧
      getF (passportSubject c1Passport c1Did) (s2l "did")
        = some (J.str c1Did) :=
  ⟨c1SignedVC, c1_export, c1_import, by decide, by decide, by decide,
   by decide⟩
